import Mathlib

/-!
Verification of the markdown parsing / highlighting / toolbar-action core of
react-native-markdown-editor.

Strings are modelled as `List Char` (`Str`); JavaScript string primitives
(`slice`, `indexOf`, `lastIndexOf`, `split`, `trim`, regex tests used by the
source) are given as executable Lean functions, and each source function
(`markdownSyntaxUtils.ts`, `markdownParser.ts`, `markdownHighlight.ts`,
`markdownToolbarActions.ts`) is translated definition by definition.
The scanning loops of the source advance a cursor and recurse on strictly
shorter slices; they are embedded as fuel-indexed functions returning
`Option`, with `none` only on fuel exhaustion, together with theorems that
the fuel supplied by the public entry points always suffices.
-/

namespace MdEditor

/-- Strings of the source are modelled as lists of characters. -/
abbrev Str := List Char

/-- Coerce a Lean string literal to the model. -/
def str (s : String) : Str := s.data

/-- JavaScript `\s` / `trim` whitespace class (WhiteSpace ∪ LineTerminator). -/
def isJsSpace (c : Char) : Bool :=
  let n := c.toNat
  n = 32 || n = 9 || n = 10 || n = 13 || n = 11 || n = 12 ||
  n = 0xa0 || n = 0x1680 || (0x2000 ≤ n && n ≤ 0x200a) ||
  n = 0x2028 || n = 0x2029 || n = 0x202f || n = 0x205f ||
  n = 0x3000 || n = 0xfeff

/-- JavaScript line terminators (what `.` refuses to match). -/
def isLineTerm (c : Char) : Bool :=
  let n := c.toNat
  n = 10 || n = 13 || n = 0x2028 || n = 0x2029

/-- The character class `[\w-]` of the fence pattern. -/
def isWordDash (c : Char) : Bool :=
  ('a' ≤ c && c ≤ 'z') || ('A' ≤ c && c ≤ 'Z') || ('0' ≤ c && c ≤ '9') ||
  c = '_' || c = '-'

/-- Decimal digit class `\d`. -/
def isDigitChar (c : Char) : Bool := '0' ≤ c && c ≤ '9'

/-- JavaScript `s.slice(a, b)` for non-negative indices. -/
def jsSlice (l : Str) (a b : Nat) : Str := (l.take b).drop a

/-- JavaScript `s[i]`. -/
def charAt (l : Str) (i : Nat) : Option Char := l.get? i

/-- JavaScript `s.startsWith(tok, i)`. -/
def startsWithAt (l : Str) (tok : Str) (i : Nat) : Bool :=
  (l.drop i).take tok.length == tok

/-- JavaScript `s.trim()`. -/
def jsTrim (l : Str) : Str :=
  ((l.dropWhile isJsSpace).reverse.dropWhile isJsSpace).reverse

/-- JavaScript `s.indexOf(c, from)` for a single character. -/
def jsIndexOfFrom (l : Str) (c : Char) (pos : Nat) : Option Nat :=
  (List.range l.length).find? (fun i => pos ≤ i && l.get? i == some c)

/-- JavaScript `s.lastIndexOf(c, pos)` for a single character. -/
def jsLastIndexOf (l : Str) (c : Char) (pos : Nat) : Option Nat :=
  ((List.range l.length).filter (fun i => i ≤ pos && l.get? i == some c)).getLast?

/-- JavaScript `s.split('\n')`: always at least one (possibly empty) piece. -/
def splitNL : Str → List Str
  | [] => [[]]
  | c :: rest =>
    match splitNL rest with
    | [] => [[c]]
    | h :: t => if c = '\n' then [] :: h :: t else (c :: h) :: t

/-- Join lines with `'\n'` (JavaScript `lines.join('\n')`). -/
def joinNL : List Str → Str
  | [] => []
  | [x] => x
  | x :: t => x ++ '\n' :: joinNL t

/-- Decimal rendering of a natural number (JavaScript `String(n)`). -/
def natToChars (n : Nat) : Str := (Nat.toDigits 10 n)

-- ---------------------------------------------------------------------------
-- markdownCore.types: toolbar actions and the feature list
-- ---------------------------------------------------------------------------

/-- The `MarkdownToolbarAction` union of the source. -/
inductive MarkdownToolbarAction where
  | bold | italic | strikethrough | code
  | codeBlock
  | heading | heading1 | heading2 | heading3 | heading4 | heading5 | heading6
  | quote | unorderedList | orderedList | divider | image
deriving DecidableEq, Repr

/-- The `MarkdownInlineToolbarAction` subset. -/
inductive MarkdownInlineAction where
  | bold | italic | strikethrough | code
deriving DecidableEq, Repr

/-- Inclusion of inline actions into the full action union. -/
def MarkdownInlineAction.toAction : MarkdownInlineAction → MarkdownToolbarAction
  | .bold => .bold
  | .italic => .italic
  | .strikethrough => .strikethrough
  | .code => .code

/-- `isInlineToolbarAction` of the source, as a partial inverse. -/
def toInlineAction : MarkdownToolbarAction → Option MarkdownInlineAction
  | .bold => some .bold
  | .italic => some .italic
  | .strikethrough => some .strikethrough
  | .code => some .code
  | _ => none

/-- `features?: MarkdownToolbarAction[]` — `none` means "all enabled". -/
abbrev Features := Option (List MarkdownToolbarAction)

/-- Is `a` one of the heading actions? -/
def isHeadingAction : MarkdownToolbarAction → Bool
  | .heading | .heading1 | .heading2 | .heading3
  | .heading4 | .heading5 | .heading6 => true
  | _ => false

/-- `isMarkdownFeatureEnabled` of `markdownSyntaxUtils.ts`. -/
def isMarkdownFeatureEnabled (features : Features)
    (feature : MarkdownToolbarAction) : Bool :=
  match features with
  | none => true
  | some fs =>
    if feature = .heading then fs.any isHeadingAction
    else fs.contains feature

/-- The action named `heading<level>`, when the level is between 1 and 6. -/
def headingActionOfLevel : Nat → Option MarkdownToolbarAction
  | 1 => some .heading1
  | 2 => some .heading2
  | 3 => some .heading3
  | 4 => some .heading4
  | 5 => some .heading5
  | 6 => some .heading6
  | _ => none

/-- `isHeadingLevelEnabled` of `markdownSyntaxUtils.ts`. -/
def isHeadingLevelEnabled (features : Features) (level : Nat) : Bool :=
  match features with
  | none => true
  | some fs =>
    fs.contains .heading ||
    (match headingActionOfLevel level with
     | some a => fs.contains a
     | none => false)

-- ---------------------------------------------------------------------------
-- markdownSyntaxUtils.ts: escapes, token search, image source/title
-- ---------------------------------------------------------------------------

/-- Number of consecutive backslashes immediately before `index`. -/
def backslashRunBefore (value : Str) (index : Nat) : Nat :=
  (((value.take index).reverse).takeWhile (fun c => c = '\\')).length

/-- `isEscaped` of the source: odd number of preceding backslashes. -/
def isEscaped (value : Str) (index : Nat) : Bool :=
  if index ≤ value.length then backslashRunBefore value index % 2 = 1
  else false

/-- Does `token` occur verbatim at index `i` of `input`? -/
def matchesAt (input token : Str) (i : Nat) : Bool :=
  (input.drop i).take token.length == token

/-- `findUnescapedToken` of the source: first unescaped occurrence of
`token` at or after `start`. -/
def findUnescapedToken (input token : Str) (start : Nat) : Option Nat :=
  if token.isEmpty then none
  else
    (List.range input.length).find? (fun i =>
      start ≤ i && i + token.length ≤ input.length &&
      matchesAt input token i && !isEscaped input i)

/-- The escapable character class of `ESCAPED_MARKDOWN_PATTERN`. -/
def isEscapableChar (c : Char) : Bool :=
  c = '\\' || c = '`' || c = '*' || c = '_' || c = '~' || c = '[' || c = ']' ||
  c = '(' || c = ')' || c = '#' || c = '+' || c = '.' || c = '!' || c = '>' ||
  c = '\x7b' || c = '\x7d' || c = '-'

/-- `unescapeMarkdown` of the source: drop one backslash before any
markdown-special character. -/
def unescapeMarkdown : Str → Str
  | [] => []
  | '\\' :: c :: rest =>
    if isEscapableChar c then c :: unescapeMarkdown rest
    else '\\' :: unescapeMarkdown (c :: rest)
  | c :: rest => c :: unescapeMarkdown rest

/-- Does `l` consist of a double-quoted (`q = '"'`) or single-quoted title,
exactly to the end (`"([^"]*)"$` of the title pattern)? -/
def quotedToEnd (q : Char) (l : Str) : Option Str :=
  match l with
  | [] => none
  | c :: rest =>
    if c = q ∧ rest ≠ [] ∧ rest.getLast? = some q ∧
        (rest.dropLast.all (fun ch => ch ≠ q)) then
      some rest.dropLast
    else none

/-- One split attempt of `/^(.+?)\s+(?:"([^"]*)"|'([^']*)')$/`: the part after
the lazy group must be a nonempty whitespace run followed by a quoted title
reaching the end. -/
def titleTail (l : Str) : Option Str :=
  let w := l.takeWhile isJsSpace
  if w.isEmpty then none
  else
    match quotedToEnd '"' (l.drop w.length) with
    | some t => some t
    | none => quotedToEnd '\'' (l.drop w.length)

/-- The lazy scan of the title pattern: smallest nonempty prefix (of
non-terminator characters) whose remainder is whitespace plus a final quoted
title. Returns `(src-part, title)`. -/
def titleSplit (trimmed : Str) : Option (Str × Str) :=
  (List.range trimmed.length).findSome? (fun i =>
    let src := trimmed.take (i + 1)
    if src.all (fun c => !isLineTerm c) then
      (titleTail (trimmed.drop (i + 1))).map (fun t => (src, t))
    else none)

/-- `parseImageSourceAndTitle` of the source. -/
def parseImageSourceAndTitle (raw : Str) (unescapeSrc : Bool) :
    Str × Option Str :=
  let normalizeSrc := fun (v : Str) => if unescapeSrc then unescapeMarkdown v else v
  let trimmed := jsTrim raw
  match titleSplit trimmed with
  | some (src, t) => (normalizeSrc (jsTrim src), some t)
  | none => (normalizeSrc trimmed, none)

-- ---------------------------------------------------------------------------
-- markdownParser.ts: block-recognition patterns
-- ---------------------------------------------------------------------------

/-- Leading run of '#' characters. -/
def leadingHashes (l : Str) : Nat := (l.takeWhile (fun c => c = '#')).length

/-- `HEADING_PATTERN = /^(#{1,6})\s+(.+)$/` (parser variant, anchored).
Returns `(level, content)`.  The content group is the remainder after the
maximal whitespace run when that remainder is nonempty (and free of line
terminators, which `.` cannot match under the `$` anchor); when the whole
remainder is whitespace, backtracking yields the last character provided it
is not a line terminator. -/
def headingMatchP (l : Str) : Option (Nat × Str) :=
  let n := leadingHashes l
  if 1 ≤ n ∧ n ≤ 6 then
    let rem := l.drop n
    let w := rem.takeWhile isJsSpace
    if w.isEmpty then none
    else
      let c := rem.drop w.length
      if !c.isEmpty then
        if c.all (fun ch => !isLineTerm ch) then some (n, c) else none
      else
        match rem.getLast? with
        | some last =>
          if rem.length ≥ 2 ∧ !isLineTerm last then some (n, [last]) else none
        | none => none
  else none

/-- `HEADING_RE = /^(#{1,6})\s+(.*)/` (highlighter variant, unanchored).
The content group stops at the first line terminator. -/
def headingMatchH (l : Str) : Option (Nat × Str) :=
  let n := leadingHashes l
  if 1 ≤ n ∧ n ≤ 6 then
    let rem := l.drop n
    let w := rem.takeWhile isJsSpace
    if w.isEmpty then none
    else some (n, (rem.drop w.length).takeWhile (fun ch => !isLineTerm ch))
  else none

/-- `BLOCKQUOTE_PATTERN = /^>\s?(.*)$/` (parser variant): the marker `>`,
one optional whitespace character, then the rest, which the `$` anchor
forces to be free of line terminators (with `\s?` backtracking). -/
def blockquoteMatchP (l : Str) : Option Str :=
  match l with
  | '>' :: rest =>
    match rest with
    | c :: body =>
      if isJsSpace c then
        if body.all (fun ch => !isLineTerm ch) then some body
        else if rest.all (fun ch => !isLineTerm ch) then some rest
        else none
      else if rest.all (fun ch => !isLineTerm ch) then some rest
      else none
    | [] => some []
  | _ => none

/-- `BLOCKQUOTE_RE = /^(>\s?)(.*)/` (highlighter variant): returns
`(marker, content)` with the content stopping at a line terminator. -/
def blockquoteMatchH (l : Str) : Option (Str × Str) :=
  match l with
  | '>' :: rest =>
    match rest with
    | c :: body =>
      if isJsSpace c then
        some (['>', c], body.takeWhile (fun ch => !isLineTerm ch))
      else some (['>'], rest.takeWhile (fun ch => !isLineTerm ch))
    | [] => some (['>'], [])
  | _ => none

/-- `HORIZONTAL_RULE_PATTERN = /^ {0,3}([-*_])[ \t]*(?:\1[ \t]*){2,}$/`:
up to three leading spaces, then at least three occurrences of the same
rule character interleaved with spaces and tabs only. -/
def isHorizontalRule (l : Str) : Bool :=
  let sp := l.takeWhile (fun c => c = ' ')
  if sp.length ≤ 3 then
    match l.drop sp.length with
    | c :: tail =>
      (c = '-' || c = '*' || c = '_') &&
      tail.all (fun x => x = c || x = ' ' || x = '\t') &&
      2 ≤ tail.count c
    | [] => false
  else false

/-- `UNORDERED_LIST_PATTERN = /^\s*[-*+]\s+(.*)$/` (parser variant):
returns the item content. -/
def ulMatchP (l : Str) : Option Str :=
  let lead := l.takeWhile isJsSpace
  match l.drop lead.length with
  | c :: rest =>
    if c = '-' || c = '*' || c = '+' then
      let w := rest.takeWhile isJsSpace
      if !w.isEmpty ∧ (rest.drop w.length).all (fun ch => !isLineTerm ch) then
        some (rest.drop w.length)
      else none
    else none
  | [] => none

/-- `ORDERED_LIST_PATTERN = /^\s*\d+\.\s+(.*)$/` (parser variant):
returns the item content. -/
def olMatchP (l : Str) : Option Str :=
  let lead := l.takeWhile isJsSpace
  let afterLead := l.drop lead.length
  let digits := afterLead.takeWhile isDigitChar
  if digits.isEmpty then none
  else
    match afterLead.drop digits.length with
    | '.' :: rest =>
      let w := rest.takeWhile isJsSpace
      if !w.isEmpty ∧ (rest.drop w.length).all (fun ch => !isLineTerm ch) then
        some (rest.drop w.length)
      else none
    | _ => none

/-- `UNORDERED_LIST_RE = /^(\s*[-*+]\s+)(.*)/` (highlighter variant):
returns `(marker, content)`. -/
def ulMatchH (l : Str) : Option (Str × Str) :=
  let lead := l.takeWhile isJsSpace
  match l.drop lead.length with
  | c :: rest =>
    if c = '-' || c = '*' || c = '+' then
      let w := rest.takeWhile isJsSpace
      if !w.isEmpty then
        some (lead ++ c :: w, (rest.drop w.length).takeWhile (fun ch => !isLineTerm ch))
      else none
    else none
  | [] => none

/-- `ORDERED_LIST_RE = /^(\s*\d+\.\s+)(.*)/` (highlighter variant):
returns `(marker, content)`. -/
def olMatchH (l : Str) : Option (Str × Str) :=
  let lead := l.takeWhile isJsSpace
  let afterLead := l.drop lead.length
  let digits := afterLead.takeWhile isDigitChar
  if digits.isEmpty then none
  else
    match afterLead.drop digits.length with
    | '.' :: rest =>
      let w := rest.takeWhile isJsSpace
      if !w.isEmpty then
        some (lead ++ digits ++ '.' :: w,
              (rest.drop w.length).takeWhile (fun ch => !isLineTerm ch))
      else none
    | _ => none

/-- `FENCE_PATTERN = /^```([\w-]+)?\s*$/`: returns the optional language
group. -/
def fenceOpenMatch (l : Str) : Option (Option Str) :=
  if l.take 3 = ['`', '`', '`'] then
    let rest := l.drop 3
    let w := rest.takeWhile isWordDash
    if (rest.drop w.length).all isJsSpace then
      some (if w.isEmpty then none else some w)
    else none
  else none

/-- `FENCE_CLOSE_PATTERN = /^```\s*$/`. -/
def isFenceClose (l : Str) : Bool :=
  l.take 3 = ['`', '`', '`'] && (l.drop 3).all isJsSpace

/-- `CODE_FENCE_RE = /^```/` (highlighter). -/
def isCodeFenceLine (l : Str) : Bool := l.take 3 = ['`', '`', '`']

/-- `line.trim().length === 0`. -/
def isBlank (l : Str) : Bool := (jsTrim l).isEmpty

/-- `markdown.replace(/\r\n?/g, '\n')`. -/
def normalizeCR : Str → Str
  | [] => []
  | '\r' :: '\n' :: t => '\n' :: normalizeCR t
  | '\r' :: t => '\n' :: normalizeCR t
  | c :: t => c :: normalizeCR t

-- ---------------------------------------------------------------------------
-- markdownParser.ts: inline AST parser
-- ---------------------------------------------------------------------------

/-- `MarkdownInlineNode` of the source. -/
inductive MarkdownInlineNode where
  | text (content : Str)
  | code (content : Str)
  | bold (children : List MarkdownInlineNode)
  | italic (children : List MarkdownInlineNode)
  | strikethrough (children : List MarkdownInlineNode)
  | link (href : Str) (children : List MarkdownInlineNode)
  | image (src : Str) (alt : Str) (title : Option Str)

/-- Is an inline node a text node? -/
def MarkdownInlineNode.isText : MarkdownInlineNode → Bool
  | .text _ => true
  | _ => false

/-- The `appendText` closure of `parseMarkdownInline`, acting on the node
accumulator kept in reverse order: merge into a trailing text node, or push
a new one; empty values are ignored. -/
def appendTextA (acc : List MarkdownInlineNode) (v : Str) :
    List MarkdownInlineNode :=
  if v.isEmpty then acc
  else
    match acc with
    | .text t :: rest => .text (t ++ v) :: rest
    | _ => .text v :: acc

/-- The scan loop of `parseMarkdownInline`.  `acc` holds the emitted nodes
in reverse; the result is `none` only on fuel exhaustion.  Recursive calls
for nested constructs run on strict sub-slices with the decremented fuel. -/
def parseMDInlineGo (fs : Features) :
    Nat → Str → Nat → List MarkdownInlineNode → Option (List MarkdownInlineNode)
  | 0, _, _, _ => none
  | fuel + 1, content, cursor, acc =>
    if cursor < content.length then
      -- Escape: \* -> literal *
      if charAt content cursor = some '\\' ∧ cursor + 1 < content.length then
        parseMDInlineGo fs fuel content (cursor + 2)
          (appendTextA acc (jsSlice content (cursor + 1) (cursor + 2)))
      else
        -- Inline code: `code`
        match (if isMarkdownFeatureEnabled fs .code ∧ charAt content cursor = some '`'
               then findUnescapedToken content ['`'] (cursor + 1) else none) with
        | some closingIndex =>
          parseMDInlineGo fs fuel content (closingIndex + 1)
            (.code (unescapeMarkdown (jsSlice content (cursor + 1) closingIndex)) :: acc)
        | none =>
        -- Bold: **text** or __text__
        match (if isMarkdownFeatureEnabled fs .bold ∧
                  (startsWithAt content ['*', '*'] cursor ∨ startsWithAt content ['_', '_'] cursor)
               then findUnescapedToken content (jsSlice content cursor (cursor + 2)) (cursor + 2)
               else none) with
        | some closingIndex =>
          (parseMDInlineGo fs fuel (jsSlice content (cursor + 2) closingIndex) 0 []).bind
            (fun children =>
              parseMDInlineGo fs fuel content (closingIndex + 2) (.bold children :: acc))
        | none =>
        -- Strikethrough: ~~text~~
        match (if isMarkdownFeatureEnabled fs .strikethrough ∧
                  startsWithAt content ['~', '~'] cursor
               then findUnescapedToken content ['~', '~'] (cursor + 2) else none) with
        | some closingIndex =>
          (parseMDInlineGo fs fuel (jsSlice content (cursor + 2) closingIndex) 0 []).bind
            (fun children =>
              parseMDInlineGo fs fuel content (closingIndex + 2)
                (.strikethrough children :: acc))
        | none =>
        -- Italic: *text* or _text_
        match (if isMarkdownFeatureEnabled fs .italic ∧
                  (charAt content cursor = some '*' ∨ charAt content cursor = some '_')
               then (charAt content cursor).bind
                 (fun m => findUnescapedToken content [m] (cursor + 1))
               else none) with
        | some closingIndex =>
          (parseMDInlineGo fs fuel (jsSlice content (cursor + 1) closingIndex) 0 []).bind
            (fun children =>
              parseMDInlineGo fs fuel content (closingIndex + 1) (.italic children :: acc))
        | none =>
        -- Image: ![alt](url), enabled and syntactically complete
        match (if charAt content cursor = some '!' ∧ charAt content (cursor + 1) = some '[' ∧
                  isMarkdownFeatureEnabled fs .image
               then match findUnescapedToken content [']'] (cursor + 2) with
                 | some altClosingIndex =>
                   if charAt content (altClosingIndex + 1) = some '(' then
                     (findUnescapedToken content [')'] (altClosingIndex + 2)).map
                       (fun srcClosingIndex => (altClosingIndex, srcClosingIndex))
                   else none
                 | none => none
               else none) with
        | some (altClosingIndex, srcClosingIndex) =>
          let alt := unescapeMarkdown (jsSlice content (cursor + 2) altClosingIndex)
          let raw := jsSlice content (altClosingIndex + 2) srcClosingIndex
          let st := parseImageSourceAndTitle raw true
          parseMDInlineGo fs fuel content (srcClosingIndex + 1)
            (.image st.1 alt st.2 :: acc)
        | none =>
        -- Image feature disabled: swallow the whole span (or just the '!')
        if charAt content cursor = some '!' ∧ charAt content (cursor + 1) = some '[' ∧
            ¬ isMarkdownFeatureEnabled fs .image then
          match (match findUnescapedToken content [']'] (cursor + 2) with
                 | some altClosingIndex =>
                   if charAt content (altClosingIndex + 1) = some '(' then
                     findUnescapedToken content [')'] (altClosingIndex + 2)
                   else none
                 | none => none) with
          | some srcClosingIndex =>
            parseMDInlineGo fs fuel content (srcClosingIndex + 1)
              (appendTextA acc (jsSlice content cursor (srcClosingIndex + 1)))
          | none =>
            parseMDInlineGo fs fuel content (cursor + 1) (appendTextA acc ['!'])
        else
        -- Link: [label](url)
        match (if charAt content cursor = some '[' then
                 match findUnescapedToken content [']'] (cursor + 1) with
                 | some labelClosingIndex =>
                   if charAt content (labelClosingIndex + 1) = some '(' then
                     (findUnescapedToken content [')'] (labelClosingIndex + 2)).map
                       (fun hrefClosingIndex => (labelClosingIndex, hrefClosingIndex))
                   else none
                 | none => none
               else none) with
        | some (labelClosingIndex, hrefClosingIndex) =>
          (parseMDInlineGo fs fuel (jsSlice content (cursor + 1) labelClosingIndex) 0 []).bind
            (fun children =>
              parseMDInlineGo fs fuel content (hrefClosingIndex + 1)
                (.link (unescapeMarkdown
                         (jsSlice content (labelClosingIndex + 2) hrefClosingIndex))
                   children :: acc))
        | none =>
          -- Simple text character
          parseMDInlineGo fs fuel content (cursor + 1)
            (appendTextA acc (jsSlice content cursor (cursor + 1)))
    else
      some acc.reverse

/-- `parseMarkdownInline` of the source; the supplied fuel always suffices
(`parseMDInlineGo_isSome`). -/
def parseMarkdownInline (content : Str) (fs : Features) : List MarkdownInlineNode :=
  (parseMDInlineGo fs (content.length + 1) content 0 []).getD []

-- ---------------------------------------------------------------------------
-- markdownParser.ts: block scanner
-- ---------------------------------------------------------------------------

/-- `MarkdownBlockNode` of the source. -/
inductive MarkdownBlockNode where
  | paragraph (children : List MarkdownInlineNode)
  | heading (level : Nat) (children : List MarkdownInlineNode)
  | codeBlock (language : Option Str) (content : Str)
  | blockquote (children : List MarkdownInlineNode)
  | horizontalRule
  | spacer
  | list (ordered : Bool) (items : List (List MarkdownInlineNode))

/-- `findClosingFence` of the source: first line index at or after
`startIndex` matching the closing-fence pattern. -/
def findClosingFence (lines : List Str) (startIndex : Nat) : Option Nat :=
  (List.range lines.length).find? (fun i =>
    startIndex ≤ i && isFenceClose (lines.getD i []))

/-- `isBlockStart` of the source: does the line at `index` begin a new
block-level construct?  An opening fence counts only when a closing fence
follows. -/
def isBlockStart (lines : List Str) (index : Nat) (fs : Features) : Bool :=
  let line := lines.getD index []
  if isBlank line then false
  else if isMarkdownFeatureEnabled fs .heading &&
      (match headingMatchP line with
       | some nc => isHeadingLevelEnabled fs nc.1
       | none => false) then true
  else if isMarkdownFeatureEnabled fs .divider && isHorizontalRule line then true
  else if isMarkdownFeatureEnabled fs .quote && (blockquoteMatchP line).isSome then true
  else if (isMarkdownFeatureEnabled fs .unorderedList && (ulMatchP line).isSome) ||
      (isMarkdownFeatureEnabled fs .orderedList && (olMatchP line).isSome) then true
  else if isMarkdownFeatureEnabled fs .codeBlock && (fenceOpenMatch line).isSome then
    (findClosingFence lines (index + 1)).isSome
  else false

/-- The paragraph-collection loop of `parseMarkdown`: consume consecutive
lines (the suffix `rest = lines.drop i`) until a blank line or a block
start. -/
def collectParagraph (lines : List Str) (fs : Features) :
    List Str → Nat → List Str
  | [], _ => []
  | l :: rest, i =>
    if isBlank l || isBlockStart lines i fs then []
    else l :: collectParagraph lines fs rest (i + 1)

/-- The main loop of `parseMarkdown` over the (already split) lines.
Blocks are emitted in order; `none` only on fuel exhaustion; every
iteration advances the cursor by at least one line. -/
def parseMarkdownGo (lines : List Str) (fs : Features) :
    Nat → Nat → Option (List MarkdownBlockNode)
  | 0, _ => none
  | fuel + 1, cursor =>
    if cursor < lines.length then
      let line := lines.getD cursor []
      if isBlank line then
        (parseMarkdownGo lines fs fuel (cursor + 1)).map (.spacer :: ·)
      else
        -- Fenced code block (only when a closing fence exists)
        match (match (if isMarkdownFeatureEnabled fs .codeBlock
                      then fenceOpenMatch line else none) with
               | some lang => (findClosingFence lines (cursor + 1)).map (fun ci => (lang, ci))
               | none => none) with
        | some (lang, closingFenceIndex) =>
          (parseMarkdownGo lines fs fuel (closingFenceIndex + 1)).map
            (.codeBlock lang
              (joinNL ((lines.take closingFenceIndex).drop (cursor + 1))) :: ·)
        | none =>
        -- Heading
        match (match headingMatchP line with
               | some nc =>
                 if !isEscaped line 0 && isHeadingLevelEnabled fs nc.1 then some nc
                 else none
               | none => none) with
        | some (level, contentGroup) =>
          (parseMarkdownGo lines fs fuel (cursor + 1)).map
            (.heading level (parseMarkdownInline contentGroup fs) :: ·)
        | none =>
        -- Horizontal rule
        if isMarkdownFeatureEnabled fs .divider && isHorizontalRule line then
          (parseMarkdownGo lines fs fuel (cursor + 1)).map (.horizontalRule :: ·)
        else
        -- Blockquote: consume all following quote lines
        if isMarkdownFeatureEnabled fs .quote && (blockquoteMatchP line).isSome then
          let quoteLines := (lines.drop cursor).takeWhile
            (fun l => (blockquoteMatchP l).isSome)
          let quotedContents := quoteLines.filterMap blockquoteMatchP
          (parseMarkdownGo lines fs fuel (cursor + quoteLines.length)).map
            (.blockquote (parseMarkdownInline (joinNL quotedContents) fs) :: ·)
        else
        -- List: unordered or ordered, consuming same-type lines
        if (isMarkdownFeatureEnabled fs .unorderedList && (ulMatchP line).isSome) ||
            (isMarkdownFeatureEnabled fs .orderedList && (olMatchP line).isSome) then
          let ordered := (olMatchP line).isSome
          let itemPattern := if ordered then olMatchP else ulMatchP
          let itemLines := (lines.drop cursor).takeWhile
            (fun l => (itemPattern l).isSome)
          let items := itemLines.filterMap
            (fun l => (itemPattern l).map (fun g => parseMarkdownInline g fs))
          (parseMarkdownGo lines fs fuel (cursor + itemLines.length)).map
            (.list ordered items :: ·)
        else
          -- Paragraph: consecutive non-empty lines until the next block start
          let paragraphLines := collectParagraph lines fs (lines.drop cursor) cursor
          if !paragraphLines.isEmpty then
            (parseMarkdownGo lines fs fuel (cursor + paragraphLines.length)).map
              (.paragraph (parseMarkdownInline (joinNL paragraphLines) fs) :: ·)
          else
            parseMarkdownGo lines fs fuel (cursor + 1)
    else
      some []

/-- `parseMarkdown` of the source; the supplied fuel always suffices
(`parseMarkdownGo_isSome`). -/
def parseMarkdown (markdown : Str) (fs : Features) : List MarkdownBlockNode :=
  let lines := splitNL (normalizeCR markdown)
  (parseMarkdownGo lines fs (lines.length + 1) 0).getD []

-- ---------------------------------------------------------------------------
-- markdownHighlight.ts: types
-- ---------------------------------------------------------------------------

/-- The `meta?: Record<string, string>` maps of the highlighter.  Only five
keys ever occur (`lineContext`, `headingLevel`, `src`, `alt`, `title`);
the record is modelled with one optional field per key. -/
structure Meta where
  lineContext : Option Str := none
  headingLevel : Option Str := none
  src : Option Str := none
  alt : Option Str := none
  title : Option Str := none
deriving DecidableEq

/-- Object spread `{...a, ...b}` on two metadata records: keys present in
`b` win. -/
def mergeMeta (a b : Meta) : Meta where
  lineContext := match b.lineContext with | some v => some v | none => a.lineContext
  headingLevel := match b.headingLevel with | some v => some v | none => a.headingLevel
  src := match b.src with | some v => some v | none => a.src
  alt := match b.alt with | some v => some v | none => a.alt
  title := match b.title with | some v => some v | none => a.title

/-- `InlineSegmentType` of `markdownHighlight.types`. -/
inductive InlineSegmentType where
  | text | delimiter | code | linkLabel | linkUrl | imageAlt
deriving DecidableEq

/-- `RawInlineSegment` of `markdownHighlight.types`. -/
structure RawInlineSegment where
  text : Str
  type : InlineSegmentType
  bold : Bool
  italic : Bool
  strikethrough : Bool
  meta : Option Meta := none
deriving DecidableEq

/-- `InlineContext` of `markdownHighlight.types`. -/
structure InlineContext where
  bold : Bool
  italic : Bool
  strikethrough : Bool
deriving DecidableEq

/-- `HighlightSegmentType` of `markdownHighlight.types`. -/
inductive HighlightSegmentType where
  | text | delimiter | heading | bold | italic | strikethrough | code
  | codeBlock | link | linkUrl | image | quote | quoteMarker | listMarker
  | horizontalRule
deriving DecidableEq

/-- `HighlightSegment` of `markdownHighlight.types`. -/
structure HighlightSegment where
  text : Str
  type : HighlightSegmentType
  meta : Option Meta := none
deriving DecidableEq

-- ---------------------------------------------------------------------------
-- markdownHighlight.ts: inline parser (delimiters preserved)
-- ---------------------------------------------------------------------------

/-- The `appendText` closure of `parseInlineHighlight`, on the reversed
segment accumulator: merge when type and all three context flags agree. -/
def appendSegA (ctx : InlineContext) (acc : List RawInlineSegment) (v : Str)
    (ty : InlineSegmentType) : List RawInlineSegment :=
  if v.isEmpty then acc
  else
    match acc with
    | last :: rest =>
      if last.type = ty ∧ last.bold = ctx.bold ∧ last.italic = ctx.italic ∧
          last.strikethrough = ctx.strikethrough then
        { last with text := last.text ++ v } :: rest
      else
        ⟨v, ty, ctx.bold, ctx.italic, ctx.strikethrough, none⟩ :: acc
    | [] => [⟨v, ty, ctx.bold, ctx.italic, ctx.strikethrough, none⟩]

/-- A delimiter segment (pushed with all context flags false). -/
def delimSeg (v : Str) : RawInlineSegment := ⟨v, .delimiter, false, false, false, none⟩

/-- The scan loop of `parseInlineHighlight`; `acc` is kept in reverse. -/
def parseInlineHLGo (fs : Features) (ctx : InlineContext) :
    Nat → Str → Nat → List RawInlineSegment → Option (List RawInlineSegment)
  | 0, _, _, _ => none
  | fuel + 1, content, cursor, acc =>
    if cursor < content.length then
      -- Escape: backslash kept visible as a delimiter
      if charAt content cursor = some '\\' ∧ cursor + 1 < content.length then
        parseInlineHLGo fs ctx fuel content (cursor + 2)
          (appendSegA ctx (delimSeg ['\\'] :: acc)
            (jsSlice content (cursor + 1) (cursor + 2)) .text)
      else
        -- Inline code: backticks are delimiters, content is code
        match (if isMarkdownFeatureEnabled fs .code ∧ charAt content cursor = some '`'
               then findUnescapedToken content ['`'] (cursor + 1) else none) with
        | some closeIdx =>
          parseInlineHLGo fs ctx fuel content (closeIdx + 1)
            (delimSeg ['`'] ::
             ⟨jsSlice content (cursor + 1) closeIdx, .code, false, false, false, none⟩ ::
             delimSeg ['`'] :: acc)
        | none =>
        -- Bold: recursion with the bold context flag set
        match (if isMarkdownFeatureEnabled fs .bold ∧
                  (startsWithAt content ['*', '*'] cursor ∨ startsWithAt content ['_', '_'] cursor)
               then findUnescapedToken content (jsSlice content cursor (cursor + 2)) (cursor + 2)
               else none) with
        | some closeIdx =>
          let marker := jsSlice content cursor (cursor + 2)
          (parseInlineHLGo fs { ctx with bold := true } fuel
              (jsSlice content (cursor + 2) closeIdx) 0 []).bind
            (fun inner =>
              parseInlineHLGo fs ctx fuel content (closeIdx + 2)
                (delimSeg marker :: inner.reverse ++ delimSeg marker :: acc))
        | none =>
        -- Strikethrough
        match (if isMarkdownFeatureEnabled fs .strikethrough ∧
                  startsWithAt content ['~', '~'] cursor
               then findUnescapedToken content ['~', '~'] (cursor + 2) else none) with
        | some closeIdx =>
          (parseInlineHLGo fs { ctx with strikethrough := true } fuel
              (jsSlice content (cursor + 2) closeIdx) 0 []).bind
            (fun inner =>
              parseInlineHLGo fs ctx fuel content (closeIdx + 2)
                (delimSeg ['~', '~'] :: inner.reverse ++ delimSeg ['~', '~'] :: acc))
        | none =>
        -- Italic
        match (if isMarkdownFeatureEnabled fs .italic ∧
                  (charAt content cursor = some '*' ∨ charAt content cursor = some '_')
               then (charAt content cursor).bind
                 (fun m => findUnescapedToken content [m] (cursor + 1))
               else none) with
        | some closeIdx =>
          let marker := jsSlice content cursor (cursor + 1)
          (parseInlineHLGo fs { ctx with italic := true } fuel
              (jsSlice content (cursor + 1) closeIdx) 0 []).bind
            (fun inner =>
              parseInlineHLGo fs ctx fuel content (closeIdx + 1)
                (delimSeg marker :: inner.reverse ++ delimSeg marker :: acc))
        | none =>
        -- Image, enabled and complete: one image-alt segment with metadata
        match (if charAt content cursor = some '!' ∧ charAt content (cursor + 1) = some '[' ∧
                  isMarkdownFeatureEnabled fs .image
               then match findUnescapedToken content [']'] (cursor + 2) with
                 | some altClose =>
                   if charAt content (altClose + 1) = some '(' then
                     (findUnescapedToken content [')'] (altClose + 2)).map
                       (fun srcClose => (altClose, srcClose))
                   else none
                 | none => none
               else none) with
        | some (altClose, srcClose) =>
          let fullText := jsSlice content cursor (srcClose + 1)
          let alt := jsSlice content (cursor + 2) altClose
          let rawUrl := jsTrim (jsSlice content (altClose + 2) srcClose)
          let st := parseImageSourceAndTitle rawUrl false
          parseInlineHLGo fs ctx fuel content (srcClose + 1)
            (⟨fullText, .imageAlt, ctx.bold, ctx.italic, ctx.strikethrough,
              some { src := some st.1, alt := some alt,
                     title := match st.2 with
                       | some t => if t.isEmpty then none else some t
                       | none => none }⟩ :: acc)
        | none =>
        -- Image feature disabled: swallow the span (or just the '!')
        if charAt content cursor = some '!' ∧ charAt content (cursor + 1) = some '[' ∧
            ¬ isMarkdownFeatureEnabled fs .image then
          match (match findUnescapedToken content [']'] (cursor + 2) with
                 | some altClose =>
                   if charAt content (altClose + 1) = some '(' then
                     findUnescapedToken content [')'] (altClose + 2)
                   else none
                 | none => none) with
          | some srcClose =>
            parseInlineHLGo fs ctx fuel content (srcClose + 1)
              (appendSegA ctx acc (jsSlice content cursor (srcClose + 1)) .text)
          | none =>
            parseInlineHLGo fs ctx fuel content (cursor + 1) (appendSegA ctx acc ['!'] .text)
        else
        -- Link: bracket delimiters, label and url segments
        match (if charAt content cursor = some '[' then
                 match findUnescapedToken content [']'] (cursor + 1) with
                 | some labelClose =>
                   if charAt content (labelClose + 1) = some '(' then
                     (findUnescapedToken content [')'] (labelClose + 2)).map
                       (fun hrefClose => (labelClose, hrefClose))
                   else none
                 | none => none
               else none) with
        | some (labelClose, hrefClose) =>
          parseInlineHLGo fs ctx fuel content (hrefClose + 1)
            (⟨[')'], .delimiter, ctx.bold, ctx.italic, ctx.strikethrough, none⟩ ::
             ⟨jsSlice content (labelClose + 2) hrefClose, .linkUrl,
              ctx.bold, ctx.italic, ctx.strikethrough, none⟩ ::
             ⟨[']', '('], .delimiter, ctx.bold, ctx.italic, ctx.strikethrough, none⟩ ::
             ⟨jsSlice content (cursor + 1) labelClose, .linkLabel,
              ctx.bold, ctx.italic, ctx.strikethrough, none⟩ ::
             ⟨['['], .delimiter, ctx.bold, ctx.italic, ctx.strikethrough, none⟩ :: acc)
        | none =>
          -- Simple text character
          parseInlineHLGo fs ctx fuel content (cursor + 1)
            (appendSegA ctx acc (jsSlice content cursor (cursor + 1)) .text)
    else
      some acc.reverse

/-- Default inline context of `parseInlineHighlight`. -/
def defaultCtx : InlineContext := ⟨false, false, false⟩

/-- `parseInlineHighlight` of the source; the supplied fuel always suffices
(`parseInlineHLGo_isSome`). -/
def parseInlineHighlight (content : Str) (fs : Features) : List RawInlineSegment :=
  (parseInlineHLGo fs defaultCtx (content.length + 1) content 0 []).getD []

-- ---------------------------------------------------------------------------
-- markdownHighlight.ts: highlight assembler
-- ---------------------------------------------------------------------------

/-- `resolveInlineSegmentType`: map a raw inline segment to its public
semantic type. -/
def resolveInlineSegmentType (seg : RawInlineSegment)
    (baseTextType : HighlightSegmentType) : HighlightSegmentType :=
  match seg.type with
  | .delimiter => .delimiter
  | .code => .code
  | .linkLabel => .link
  | .linkUrl => .linkUrl
  | .imageAlt => .image
  | .text =>
    if seg.bold then .bold
    else if seg.italic then .italic
    else if seg.strikethrough then .strikethrough
    else baseTextType

/-- `appendInlineSegments`: run the inline highlighter and convert raw
segments to public ones, merging per-line metadata over segment metadata. -/
def appendInlineSegments (fs : Features) (text : Str)
    (baseTextType : HighlightSegmentType) (opMeta : Option Meta) :
    List HighlightSegment :=
  (parseInlineHighlight text fs).map (fun seg =>
    { text := seg.text
      type := resolveInlineSegmentType seg baseTextType
      meta :=
        match opMeta, seg.meta with
        | none, none => none
        | om, sm => some (mergeMeta (om.getD {}) (sm.getD {})) })

/-- Metadata attached to a recognized heading line of level `n`. -/
def hlHeadingMeta (n : Nat) : Meta :=
  { lineContext := some (str "heading"), headingLevel := some (natToChars n) }

/-- Per-line step of `highlightMarkdown`: segments of the line, the updated
`inCodeBlock` flag, and the `prevLineMeta` value left for the following
newline segment (set only by the heading branch). -/
def hlLine (fs : Features) (line : Str) (inCodeBlock : Bool) :
    List HighlightSegment × Bool × Option Meta :=
  -- Code fence: open/close code blocks
  if isMarkdownFeatureEnabled fs .codeBlock && isCodeFenceLine line then
    ([{ text := line, type := .delimiter,
        meta := some { lineContext := some (str "codeFence") } }],
     !inCodeBlock, none)
  -- Inside a code block
  else if inCodeBlock then
    ([{ text := line, type := .codeBlock }], inCodeBlock, none)
  else
    -- Heading
    match (match headingMatchH line with
           | some nc =>
             if !isEscaped line 0 && isHeadingLevelEnabled fs nc.1 then some nc
             else none
           | none => none) with
    | some (level, contentGroup) =>
      let headingMeta := hlHeadingMeta level
      ({ text := List.replicate level '#' ++ [' '], type := .delimiter,
         meta := some headingMeta } ::
       appendInlineSegments fs contentGroup .heading (some headingMeta),
       inCodeBlock, some headingMeta)
    | none =>
    -- Horizontal rule
    if isMarkdownFeatureEnabled fs .divider && isHorizontalRule line then
      ([{ text := line, type := .horizontalRule }], inCodeBlock, none)
    else
    -- Blockquote
    match (if isMarkdownFeatureEnabled fs .quote then blockquoteMatchH line
           else none) with
    | some (marker, contentGroup) =>
      let quoteMeta : Meta := { lineContext := some (str "quote") }
      ({ text := marker, type := .quoteMarker, meta := some quoteMeta } ::
       appendInlineSegments fs contentGroup .quote (some quoteMeta),
       inCodeBlock, none)
    | none =>
    -- Unordered list
    match (if isMarkdownFeatureEnabled fs .unorderedList then ulMatchH line
           else none) with
    | some (marker, contentGroup) =>
      ({ text := marker, type := .listMarker } ::
       appendInlineSegments fs contentGroup .text none, inCodeBlock, none)
    | none =>
    -- Ordered list
    match (if isMarkdownFeatureEnabled fs .orderedList then olMatchH line
           else none) with
    | some (marker, contentGroup) =>
      ({ text := marker, type := .listMarker } ::
       appendInlineSegments fs contentGroup .text none, inCodeBlock, none)
    | none =>
      -- Simple text line: inline parsing only
      (appendInlineSegments fs line .text none, inCodeBlock, none)

/-- The newline segment pushed between two lines: it inherits the heading
context of the preceding line, so that the line break renders with the
heading metrics. -/
def newlineSegment (m : Option Meta) : HighlightSegment :=
  match m with
  | some mm =>
    if mm.lineContext = some (str "heading") then
      { text := ['\n'], type := .heading, meta := some mm }
    else { text := ['\n'], type := .text }
  | none => { text := ['\n'], type := .text }

/-- The loop of `highlightMarkdown` over the split lines: before every line
but the first, exactly one newline segment is pushed. -/
def hlLines (fs : Features) : List Str → Bool → List HighlightSegment
  | [], _ => []
  | l :: rest, inCodeBlock =>
    let step := hlLine fs l inCodeBlock
    step.1 ++
      (match rest with
       | [] => []
       | _ => newlineSegment step.2.2 :: hlLines fs rest step.2.1)

/-- The per-line decomposition of the same loop: the segments of each line
paired with the heading metadata it leaves for the following newline. -/
def hlLineOutputs (fs : Features) : List Str → Bool → List (List HighlightSegment × Option Meta)
  | [], _ => []
  | l :: rest, inCodeBlock =>
    let step := hlLine fs l inCodeBlock
    (step.1, step.2.2) :: hlLineOutputs fs rest step.2.1

/-- Interleave per-line segment lists with their newline separators. -/
def joinWithNewlines : List (List HighlightSegment × Option Meta) → List HighlightSegment
  | [] => []
  | [(o, _)] => o
  | (o, m) :: rest => o ++ newlineSegment m :: joinWithNewlines rest

/-- `highlightMarkdown` of the source. -/
def highlightMarkdown (markdown : Str) (fs : Features) : List HighlightSegment :=
  hlLines fs (splitNL markdown) false

/-- Concatenation of the segment texts (`joinText` of the test suite). -/
def joinSegText (segs : List HighlightSegment) : Str :=
  (segs.map HighlightSegment.text).flatten

-- ---------------------------------------------------------------------------
-- markdownToolbarActions.ts
-- ---------------------------------------------------------------------------

/-- `MarkdownSelection` (the `end` field is named `stop` here, `end` being
reserved in Lean). -/
structure MarkdownSelection where
  start : Nat
  stop : Nat
deriving DecidableEq

/-- `MarkdownToolbarActionResult`. -/
structure MarkdownToolbarActionResult where
  text : Str
  selection : MarkdownSelection
  activeInlineActions : List MarkdownInlineAction
deriving DecidableEq

/-- `INLINE_ACTION_MARKERS`. -/
def inlineActionMarkers : MarkdownInlineAction → Str × Str
  | .bold => (['*', '*'], ['*', '*'])
  | .italic => (['_'], ['_'])
  | .strikethrough => (['~', '~'], ['~', '~'])
  | .code => (['`'], ['`'])

/-- `applyInlineAction` of the source. -/
def applyInlineAction (action : MarkdownInlineAction) (text : Str)
    (selection : MarkdownSelection)
    (activeInlineActions : List MarkdownInlineAction) :
    MarkdownToolbarActionResult :=
  let marker := inlineActionMarkers action
  if selection.start ≠ selection.stop then
    let selectedText := jsSlice text selection.start selection.stop
    let nextText := jsSlice text 0 selection.start ++ marker.1 ++ selectedText ++
      marker.2 ++ text.drop selection.stop
    let markerSize := marker.1.length
    { text := nextText
      selection := ⟨selection.start + markerSize, selection.stop + markerSize⟩
      activeInlineActions := activeInlineActions.filter (fun v => v ≠ action) }
  else
    let cursor := selection.start
    let isActive := activeInlineActions.contains action
    let nextMarker := if isActive then marker.2 else marker.1
    let nextText := jsSlice text 0 cursor ++ nextMarker ++ text.drop cursor
    { text := nextText
      selection := ⟨cursor + nextMarker.length, cursor + nextMarker.length⟩
      activeInlineActions :=
        if isActive then activeInlineActions.filter (fun v => v ≠ action)
        else activeInlineActions ++ [action] }

/-- `getSelectedLineRange` of the source: expand the selection to whole
lines. -/
def getSelectedLineRange (text : Str) (selection : MarkdownSelection) :
    Nat × Nat × Str :=
  let safeStart := min selection.start text.length
  let safeEnd := min selection.stop text.length
  let start := jsLastIndexOf text '\n' (safeStart - 1)
  let stop := jsIndexOfFrom text '\n' safeEnd
  let rangeStart := match start with | none => 0 | some i => i + 1
  let rangeEnd := match stop with | none => text.length | some i => i
  (rangeStart, rangeEnd, jsSlice text rangeStart rangeEnd)

/-- Does `line` match `/^#{N}\s+/` for exactly the given level? -/
def hasHeadingLevel (line : Str) (level : Nat) : Bool :=
  line.take level = List.replicate level '#' &&
  (match line.drop level with
   | c :: _ => isJsSpace c
   | [] => false)

/-- `line.replace(/^#{1,6}\s+/, '')`: strip a 1–6 `#` heading marker. -/
def stripHeadingMarker (line : Str) : Str :=
  let n := leadingHashes line
  let k := min n 6
  if 1 ≤ k then
    let rest := line.drop k
    let w := rest.takeWhile isJsSpace
    if w.isEmpty then line else rest.drop w.length
  else line

/-- `setHeadingLevel` of the source. -/
def setHeadingLevel (lines : List Str) (level : Nat) : List Str :=
  let pfx := List.replicate level '#' ++ [' ']
  let hasSameLevel := lines.all (fun line => hasHeadingLevel line level)
  if hasSameLevel then lines.map stripHeadingMarker
  else lines.map (fun line => pfx ++ stripHeadingMarker line)

/-- Does `line` match `/^#{1,6}\s+/`? -/
def testHeadingMarker (line : Str) : Bool :=
  let n := leadingHashes line
  1 ≤ n && n ≤ 6 &&
  (match line.drop n with
   | c :: _ => isJsSpace c
   | [] => false)

/-- Does `line` match `/^>\s?/`? -/
def testQuoteMarker (line : Str) : Bool :=
  match line with
  | '>' :: _ => true
  | _ => false

/-- `line.replace(/^>\s?/, '')`. -/
def stripQuoteMarker (line : Str) : Str :=
  match line with
  | '>' :: c :: rest => if isJsSpace c then rest else c :: rest
  | '>' :: [] => []
  | _ => line

/-- Does `line` match `/^[-*+]\s+/`? -/
def testBulletMarker (line : Str) : Bool :=
  match line with
  | c :: rest =>
    (c = '-' || c = '*' || c = '+') && !(rest.takeWhile isJsSpace).isEmpty
  | [] => false

/-- `line.replace(/^[-*+]\s+/, '')`. -/
def stripBulletMarker (line : Str) : Str :=
  if testBulletMarker line then
    match line with
    | _ :: rest => rest.dropWhile isJsSpace
    | [] => line
  else line

/-- Does `line` match `/^\d+\.\s+/`? -/
def testNumberMarker (line : Str) : Bool :=
  let digits := line.takeWhile isDigitChar
  !digits.isEmpty &&
  (match line.drop digits.length with
   | '.' :: rest => !(rest.takeWhile isJsSpace).isEmpty
   | _ => false)

/-- `line.replace(/^\d+\.\s+/, '')`. -/
def stripNumberMarker (line : Str) : Str :=
  if testNumberMarker line then
    let digits := line.takeWhile isDigitChar
    match line.drop digits.length with
    | '.' :: rest => rest.dropWhile isJsSpace
    | _ => line
  else line

/-- `togglePfx`: `togglePrefix` of the source — strip a marker from every
line if all lines carry it, otherwise prepend the generated marker. -/
def togglePfx (lines : List Str) (test : Str → Bool) (strip : Str → Str)
    (pfxFactory : Nat → Str) : List Str :=
  let hasPfx := lines.all test
  if hasPfx then lines.map strip
  else lines.mapIdx (fun index line => pfxFactory index ++ line)

/-- `toggleCodeBlock` of the source. -/
def toggleCodeBlock (lines : List Str) : List Str :=
  let isWrapped := 2 ≤ lines.length &&
    isCodeFenceLine (lines.getD 0 []) &&
    isCodeFenceLine (lines.getD (lines.length - 1) [])
  if isWrapped then (lines.drop 1).dropLast
  else [['`', '`', '`']] ++ lines ++ [['`', '`', '`']]

/-- `transformLinesByAction` of the source. -/
def transformLinesByAction (action : MarkdownToolbarAction)
    (lines : List Str) : List Str :=
  match action with
  | .heading => togglePfx lines testHeadingMarker stripHeadingMarker (fun _ => ['#', ' '])
  | .heading1 => setHeadingLevel lines 1
  | .heading2 => setHeadingLevel lines 2
  | .heading3 => setHeadingLevel lines 3
  | .heading4 => setHeadingLevel lines 4
  | .heading5 => setHeadingLevel lines 5
  | .heading6 => setHeadingLevel lines 6
  | .quote => togglePfx lines testQuoteMarker stripQuoteMarker (fun _ => ['>', ' '])
  | .unorderedList => togglePfx lines testBulletMarker stripBulletMarker (fun _ => ['-', ' '])
  | .orderedList => togglePfx lines testNumberMarker stripNumberMarker
      (fun index => natToChars (index + 1) ++ ['.', ' '])
  | .divider =>
    if lines.all isHorizontalRule then lines.map (fun _ => [])
    else lines.map (fun _ => ['-', '-', '-'])
  | .codeBlock => toggleCodeBlock lines
  | _ => lines

/-- `applyBlockAction` of the source. -/
def applyBlockAction (action : MarkdownToolbarAction) (text : Str)
    (selection : MarkdownSelection)
    (activeInlineActions : List MarkdownInlineAction) :
    MarkdownToolbarActionResult :=
  let lineRange := getSelectedLineRange text selection
  let rangeStart := lineRange.1
  let rangeEnd := lineRange.2.1
  let content := lineRange.2.2
  let lines := splitNL content
  let nextLines := transformLinesByAction action lines
  let nextContent := joinNL nextLines
  let nextText := text.take rangeStart ++ nextContent ++ text.drop rangeEnd
  if selection.start = selection.stop then
    let baseOffset : Int := (selection.start : Int) - (rangeStart : Int)
    let delta : Int := (nextContent.length : Int) - (content.length : Int)
    let nextOffset : Int := max 0 (min (nextContent.length : Int) (baseOffset + delta))
    let cursor := rangeStart + nextOffset.toNat
    { text := nextText, selection := ⟨cursor, cursor⟩
      activeInlineActions := activeInlineActions }
  else
    { text := nextText
      selection := ⟨rangeStart, rangeStart + nextContent.length⟩
      activeInlineActions := activeInlineActions }

/-- `applyImageAction` of the source. -/
def applyImageAction (text : Str) (selection : MarkdownSelection)
    (activeInlineActions : List MarkdownInlineAction) :
    MarkdownToolbarActionResult :=
  let template := str "![](url)"
  let cursor := selection.start
  let nextText := jsSlice text 0 cursor ++ template ++ text.drop cursor
  { text := nextText, selection := ⟨cursor + 2, cursor + 2⟩
    activeInlineActions := activeInlineActions }

/-- `applyMarkdownToolbarAction` of the source. -/
def applyMarkdownToolbarAction (action : MarkdownToolbarAction) (text : Str)
    (selection : MarkdownSelection)
    (activeInlineActions : List MarkdownInlineAction) :
    MarkdownToolbarActionResult :=
  if action = .image then applyImageAction text selection activeInlineActions
  else
    match toInlineAction action with
    | some inlineAction =>
      applyInlineAction inlineAction text selection activeInlineActions
    | none => applyBlockAction action text selection activeInlineActions

-- ---------------------------------------------------------------------------
-- Basic lemmas
-- ---------------------------------------------------------------------------

theorem jsSlice_length (l : Str) (a b : Nat) :
    (jsSlice l a b).length = min b l.length - a := by
  simp [jsSlice]

theorem ifopt_some {α : Type} {c : Prop} [Decidable c] {x : Option α} {j : α}
    (h : (if c then x else none) = some j) : c ∧ x = some j := by
  split at h
  · exact ⟨by assumption, h⟩
  · exact absurd h (by simp)

theorem findUnescapedToken_bounds {input token : Str} {start i : Nat}
    (h : findUnescapedToken input token start = some i) :
    start ≤ i ∧ i + token.length ≤ input.length := by
  unfold findUnescapedToken at h
  split at h
  · exact absurd h (by simp)
  · have hp := List.find?_some h
    simp only [Bool.and_eq_true, decide_eq_true_eq] at hp
    exact ⟨hp.1.1.1, hp.1.1.2⟩

theorem findClosingFence_bounds {lines : List Str} {s i : Nat}
    (h : findClosingFence lines s = some i) : s ≤ i ∧ i < lines.length := by
  unfold findClosingFence at h
  have hp := List.find?_some h
  have hm := List.mem_of_find?_eq_some h
  simp only [Bool.and_eq_true, decide_eq_true_eq] at hp
  simp only [List.mem_range] at hm
  exact ⟨hp.1, hm⟩

-- ---------------------------------------------------------------------------
-- Fuel sufficiency: the scanning loops terminate on all inputs
-- ---------------------------------------------------------------------------

theorem parseMDInlineGo_isSome (fs : Features) :
    ∀ (fuel : Nat) (content : Str) (cursor : Nat)
      (acc : List MarkdownInlineNode),
      content.length - cursor < fuel →
      (parseMDInlineGo fs fuel content cursor acc).isSome := by
  intro fuel
  induction fuel with
  | zero => intro content cursor acc h; omega
  | succ fuel ih =>
    intro content cursor acc h
    rw [parseMDInlineGo]
    split
    case isFalse => simp
    case isTrue hlt =>
      split
      case isTrue hesc =>
        exact ih content (cursor + 2) _ (by omega)
      case isFalse hesc =>
        split
        case h_1 j hj =>
          obtain ⟨-, hfind⟩ := ifopt_some hj
          obtain ⟨hj1, hj2⟩ := findUnescapedToken_bounds hfind
          exact ih content (j + 1) _ (by omega)
        case h_2 hcode =>
          split
          case h_1 j hj =>
            obtain ⟨-, hfind⟩ := ifopt_some hj
            obtain ⟨hj1, hj2⟩ := findUnescapedToken_bounds hfind
            obtain ⟨children, hch⟩ := Option.isSome_iff_exists.mp
              (ih (jsSlice content (cursor + 2) j) 0 []
                (by rw [jsSlice_length]; omega))
            rw [hch, Option.some_bind]
            exact ih content (j + 2) _ (by omega)
          case h_2 hbold =>
            split
            case h_1 j hj =>
              obtain ⟨-, hfind⟩ := ifopt_some hj
              obtain ⟨hj1, hj2⟩ := findUnescapedToken_bounds hfind
              obtain ⟨children, hch⟩ := Option.isSome_iff_exists.mp
                (ih (jsSlice content (cursor + 2) j) 0 []
                  (by rw [jsSlice_length]; omega))
              rw [hch, Option.some_bind]
              exact ih content (j + 2) _ (by omega)
            case h_2 hstrike =>
              split
              case h_1 j hj =>
                obtain ⟨-, hbindeq⟩ := ifopt_some hj
                obtain ⟨m, -, hfind⟩ := Option.bind_eq_some.mp hbindeq
                obtain ⟨hj1, hj2⟩ := findUnescapedToken_bounds hfind
                obtain ⟨children, hch⟩ := Option.isSome_iff_exists.mp
                  (ih (jsSlice content (cursor + 1) j) 0 []
                    (by rw [jsSlice_length]; omega))
                rw [hch, Option.some_bind]
                exact ih content (j + 1) _ (by omega)
              case h_2 hital =>
                split
                case h_1 a s hp =>
                  obtain ⟨-, himg⟩ := ifopt_some hp
                  have hs : cursor + 4 ≤ s + 1 := by
                    split at himg
                    case h_1 a2 ha =>
                      obtain ⟨ha1, -⟩ := findUnescapedToken_bounds ha
                      split at himg
                      · rw [Option.map_eq_some'] at himg
                        obtain ⟨s2, hfs, hps⟩ := himg
                        obtain ⟨hs1, -⟩ := findUnescapedToken_bounds hfs
                        have hpa : a2 = a ∧ s2 = s := by
                          simpa [Prod.ext_iff] using hps
                        omega
                      · exact absurd himg (by simp)
                    case h_2 => exact absurd himg (by simp)
                  exact ih content (s + 1) _ (by omega)
                case h_2 himg =>
                  split
                  case isTrue hdis =>
                    split
                    case h_1 s hscru =>
                      have hs : cursor + 4 ≤ s + 1 := by
                        split at hscru
                        case h_1 a ha =>
                          obtain ⟨ha1, -⟩ := findUnescapedToken_bounds ha
                          split at hscru
                          · obtain ⟨hs1, -⟩ := findUnescapedToken_bounds hscru
                            omega
                          · exact absurd hscru (by simp)
                        case h_2 => exact absurd hscru (by simp)
                      exact ih content (s + 1) _ (by omega)
                    case h_2 =>
                      exact ih content (cursor + 1) _ (by omega)
                  case isFalse hdis =>
                    split
                    case h_1 b hh hp =>
                      obtain ⟨-, hlink⟩ := ifopt_some hp
                      have hbb : cursor + 1 ≤ b ∧ b + 2 ≤ hh := by
                        split at hlink
                        case h_1 b2 hb0 =>
                          obtain ⟨hb1, -⟩ := findUnescapedToken_bounds hb0
                          split at hlink
                          · rw [Option.map_eq_some'] at hlink
                            obtain ⟨h2, hfh, hph⟩ := hlink
                            obtain ⟨hh1, -⟩ := findUnescapedToken_bounds hfh
                            have hpa : b2 = b ∧ h2 = hh := by
                              simpa [Prod.ext_iff] using hph
                            omega
                          · exact absurd hlink (by simp)
                        case h_2 => exact absurd hlink (by simp)
                      obtain ⟨children, hch⟩ := Option.isSome_iff_exists.mp
                        (ih (jsSlice content (cursor + 1) b) 0 []
                          (by rw [jsSlice_length]; omega))
                      rw [hch, Option.some_bind]
                      exact ih content (hh + 1) _ (by omega)
                    case h_2 =>
                      exact ih content (cursor + 1) _ (by omega)

theorem parseInlineHLGo_isSome (fs : Features) :
    ∀ (fuel : Nat) (ctx : InlineContext) (content : Str) (cursor : Nat)
      (acc : List RawInlineSegment),
      content.length - cursor < fuel →
      (parseInlineHLGo fs ctx fuel content cursor acc).isSome := by
  intro fuel
  induction fuel with
  | zero => intro ctx content cursor acc h; omega
  | succ fuel ih =>
    intro ctx content cursor acc h
    rw [parseInlineHLGo]
    split
    case isFalse => simp
    case isTrue hlt =>
      split
      case isTrue hesc =>
        exact ih _ content (cursor + 2) _ (by omega)
      case isFalse hesc =>
        split
        case h_1 j hj =>
          obtain ⟨-, hfind⟩ := ifopt_some hj
          obtain ⟨hj1, hj2⟩ := findUnescapedToken_bounds hfind
          exact ih _ content (j + 1) _ (by omega)
        case h_2 hcode =>
          split
          case h_1 j hj =>
            obtain ⟨-, hfind⟩ := ifopt_some hj
            obtain ⟨hj1, hj2⟩ := findUnescapedToken_bounds hfind
            obtain ⟨inner, hin⟩ := Option.isSome_iff_exists.mp
              (ih _ (jsSlice content (cursor + 2) j) 0 []
                (by rw [jsSlice_length]; omega))
            rw [hin, Option.some_bind]
            exact ih _ content (j + 2) _ (by omega)
          case h_2 hbold =>
            split
            case h_1 j hj =>
              obtain ⟨-, hfind⟩ := ifopt_some hj
              obtain ⟨hj1, hj2⟩ := findUnescapedToken_bounds hfind
              obtain ⟨inner, hin⟩ := Option.isSome_iff_exists.mp
                (ih _ (jsSlice content (cursor + 2) j) 0 []
                  (by rw [jsSlice_length]; omega))
              rw [hin, Option.some_bind]
              exact ih _ content (j + 2) _ (by omega)
            case h_2 hstrike =>
              split
              case h_1 j hj =>
                obtain ⟨-, hbindeq⟩ := ifopt_some hj
                obtain ⟨m, -, hfind⟩ := Option.bind_eq_some.mp hbindeq
                obtain ⟨hj1, hj2⟩ := findUnescapedToken_bounds hfind
                obtain ⟨inner, hin⟩ := Option.isSome_iff_exists.mp
                  (ih _ (jsSlice content (cursor + 1) j) 0 []
                    (by rw [jsSlice_length]; omega))
                rw [hin, Option.some_bind]
                exact ih _ content (j + 1) _ (by omega)
              case h_2 hital =>
                split
                case h_1 a s hp =>
                  obtain ⟨-, himg⟩ := ifopt_some hp
                  have hs : cursor + 4 ≤ s + 1 := by
                    split at himg
                    case h_1 a2 ha =>
                      obtain ⟨ha1, -⟩ := findUnescapedToken_bounds ha
                      split at himg
                      · rw [Option.map_eq_some'] at himg
                        obtain ⟨s2, hfs, hps⟩ := himg
                        obtain ⟨hs1, -⟩ := findUnescapedToken_bounds hfs
                        have hpa : a2 = a ∧ s2 = s := by
                          simpa [Prod.ext_iff] using hps
                        omega
                      · exact absurd himg (by simp)
                    case h_2 => exact absurd himg (by simp)
                  exact ih _ content (s + 1) _ (by omega)
                case h_2 himg =>
                  split
                  case isTrue hdis =>
                    split
                    case h_1 s hscru =>
                      have hs : cursor + 4 ≤ s + 1 := by
                        split at hscru
                        case h_1 a ha =>
                          obtain ⟨ha1, -⟩ := findUnescapedToken_bounds ha
                          split at hscru
                          · obtain ⟨hs1, -⟩ := findUnescapedToken_bounds hscru
                            omega
                          · exact absurd hscru (by simp)
                        case h_2 => exact absurd hscru (by simp)
                      exact ih _ content (s + 1) _ (by omega)
                    case h_2 =>
                      exact ih _ content (cursor + 1) _ (by omega)
                  case isFalse hdis =>
                    split
                    case h_1 b hh hp =>
                      obtain ⟨-, hlink⟩ := ifopt_some hp
                      have hbb : cursor + 1 ≤ b ∧ b + 2 ≤ hh := by
                        split at hlink
                        case h_1 b2 hb0 =>
                          obtain ⟨hb1, -⟩ := findUnescapedToken_bounds hb0
                          split at hlink
                          · rw [Option.map_eq_some'] at hlink
                            obtain ⟨h2, hfh, hph⟩ := hlink
                            obtain ⟨hh1, -⟩ := findUnescapedToken_bounds hfh
                            have hpa : b2 = b ∧ h2 = hh := by
                              simpa [Prod.ext_iff] using hph
                            omega
                          · exact absurd hlink (by simp)
                        case h_2 => exact absurd hlink (by simp)
                      exact ih _ content (hh + 1) _ (by omega)
                    case h_2 =>
                      exact ih _ content (cursor + 1) _ (by omega)

theorem parseMarkdownGo_isSome (lines : List Str) (fs : Features) :
    ∀ (fuel cursor : Nat), lines.length - cursor < fuel →
      (parseMarkdownGo lines fs fuel cursor).isSome := by
  intro fuel
  induction fuel with
  | zero => intro cursor h; omega
  | succ fuel ih =>
    intro cursor h
    simp only [parseMarkdownGo]
    split
    case isFalse => simp
    case isTrue hlt =>
      split
      case isTrue hblank =>
        rw [Option.isSome_map']
        exact ih (cursor + 1) (by omega)
      case isFalse hblank =>
        split
        case h_1 lang ci hfence =>
          have hci : cursor + 1 ≤ ci := by
            split at hfence
            case h_1 l2 hl2 =>
              rw [Option.map_eq_some'] at hfence
              obtain ⟨ci2, hfind, hpair⟩ := hfence
              obtain ⟨hc1, -⟩ := findClosingFence_bounds hfind
              have hc : ci2 = ci := by
                have h2 := hpair
                simp [Prod.ext_iff] at h2
                exact h2.2
              omega
            case h_2 => exact absurd hfence (by simp)
          rw [Option.isSome_map']
          exact ih (ci + 1) (by omega)
        case h_2 hfence =>
          split
          case h_1 level contentGroup hhead =>
            rw [Option.isSome_map']
            exact ih (cursor + 1) (by omega)
          case h_2 hhead =>
            split
            case isTrue hrule =>
              rw [Option.isSome_map']
              exact ih (cursor + 1) (by omega)
            case isFalse hrule =>
              split
              case isTrue hquote =>
                rw [Option.isSome_map']
                apply ih
                have hne : 1 ≤ ((lines.drop cursor).takeWhile
                    (fun l => (blockquoteMatchP l).isSome)).length := by
                  have hdrop : lines.drop cursor =
                      lines.getD cursor [] :: lines.drop (cursor + 1) := by
                    rw [List.getD_eq_getElem _ _ hlt]
                    exact List.drop_eq_getElem_cons hlt
                  rw [hdrop, List.takeWhile_cons]
                  have hq : (blockquoteMatchP (lines.getD cursor [])).isSome = true := by
                    simp only [Bool.and_eq_true] at hquote
                    exact hquote.2
                  simp only [List.getD_eq_getElem?_getD] at hq
                  simp [hq]
                omega
              case isFalse hquote =>
                split
                case isTrue hlist =>
                  rw [Option.isSome_map']
                  apply ih
                  have hdrop : lines.drop cursor =
                      lines.getD cursor [] :: lines.drop (cursor + 1) := by
                    rw [List.getD_eq_getElem _ _ hlt]
                    exact List.drop_eq_getElem_cons hlt
                  have hne : 1 ≤ ((lines.drop cursor).takeWhile
                      (fun l => ((if (olMatchP (lines.getD cursor [])).isSome
                        then olMatchP else ulMatchP) l).isSome)).length := by
                    rw [hdrop, List.takeWhile_cons]
                    rcases hol : (olMatchP (lines.getD cursor [])).isSome with _ | _
                    · have hul : (ulMatchP (lines.getD cursor [])).isSome = true := by
                        rcases (Bool.or_eq_true _ _).mp hlist with h1 | h2
                        · exact ((Bool.and_eq_true _ _).mp h1).2
                        · refine absurd ((Bool.and_eq_true _ _).mp h2).2 ?_
                          simp only [List.getD_eq_getElem?_getD] at hol
                          simp [hol]
                      simp only [List.getD_eq_getElem?_getD] at hol hul
                      simp [hol, hul]
                    · simp only [List.getD_eq_getElem?_getD] at hol
                      simp [hol]
                  omega
                case isFalse hlist =>
                  split
                  case isTrue hpara =>
                    rw [Option.isSome_map']
                    apply ih
                    have hcp : 1 ≤ (collectParagraph lines fs (lines.drop cursor) cursor).length := by
                      rcases hc : collectParagraph lines fs (lines.drop cursor) cursor with _ | ⟨a, b⟩
                      · rw [hc] at hpara; simp at hpara
                      · simp
                    omega
                  case isFalse hpara =>
                    exact ih (cursor + 1) (by omega)

-- ---------------------------------------------------------------------------
-- Claim C1: character parity of highlightMarkdown
-- ---------------------------------------------------------------------------

/-- C1 (character-parity invariant) fails on the code: the heading branch of
`highlightMarkdown` emits the hard-coded delimiter `"#…# "` (one space) while
the heading pattern `\s+` consumes every whitespace character after the `#`
run, so the input `"#  x"` (two spaces) loses a character: the concatenated
segment texts are `"# x"`, not the input. -/
theorem c1_parity_failure :
    joinSegText (highlightMarkdown (str "#  x") none) = str "# x" ∧
    str "# x" ≠ str "#  x" := by
  constructor
  · decide
  · decide

-- ---------------------------------------------------------------------------
-- Claim C2: totality of the public entry points
-- ---------------------------------------------------------------------------

/-- C2: every public entry point terminates with a value on every input.
The scanning loops are embedded with explicit fuel and return `none` only on
fuel exhaustion; the fuel chosen by the entry points (`length + 1`, nested
calls running on strictly shorter already-delimited slices) is always
sufficient, so each entry point denotes a total function. -/
theorem c2_totality (s : Str) (fs : Features) (ctx : InlineContext)
    (sel : MarkdownSelection) (acts : List MarkdownInlineAction)
    (a : MarkdownToolbarAction) :
    (parseMDInlineGo fs (s.length + 1) s 0 []).isSome = true ∧
    (∃ ns, parseMarkdownInline s fs = ns ∧
      parseMDInlineGo fs (s.length + 1) s 0 [] = some ns) ∧
    (parseMarkdownGo (splitNL (normalizeCR s)) fs
      ((splitNL (normalizeCR s)).length + 1) 0).isSome = true ∧
    (∃ bs, parseMarkdown s fs = bs ∧
      parseMarkdownGo (splitNL (normalizeCR s)) fs
        ((splitNL (normalizeCR s)).length + 1) 0 = some bs) ∧
    (parseInlineHLGo fs ctx (s.length + 1) s 0 []).isSome = true ∧
    (∃ hs, highlightMarkdown s fs = hs) ∧
    (∃ r, applyMarkdownToolbarAction a s sel acts = r) := by
  have h1 := parseMDInlineGo_isSome fs (s.length + 1) s 0 [] (by omega)
  have h2 := parseMarkdownGo_isSome (splitNL (normalizeCR s)) fs
    ((splitNL (normalizeCR s)).length + 1) 0 (by omega)
  have h3 := parseInlineHLGo_isSome fs (s.length + 1) ctx s 0 [] (by omega)
  obtain ⟨ns, hns⟩ := Option.isSome_iff_exists.mp h1
  obtain ⟨bs, hbs⟩ := Option.isSome_iff_exists.mp h2
  refine ⟨h1, ⟨ns, ?_, hns⟩, h2, ⟨bs, ?_, hbs⟩, h3, ⟨_, rfl⟩, ⟨_, rfl⟩⟩
  · unfold parseMarkdownInline
    rw [hns]
    rfl
  · show (let lines := splitNL (normalizeCR s)
      (parseMarkdownGo lines fs (lines.length + 1) 0).getD []) = bs
    simp only []
    rw [hbs]
    rfl

-- ---------------------------------------------------------------------------
-- Character-at lemmas
-- ---------------------------------------------------------------------------

theorem charAt_lt {l : Str} {i : Nat} {c : Char} (h : charAt l i = some c) :
    i < l.length := by
  unfold charAt at h
  obtain ⟨hlt, -⟩ := List.get?_eq_some.mp h
  exact hlt

theorem charAt_drop_cons {l : Str} {i : Nat} {c : Char}
    (h : charAt l i = some c) : l.drop i = c :: l.drop (i + 1) := by
  obtain ⟨hlt, hget⟩ := List.get?_eq_some.mp h
  rw [List.drop_eq_getElem_cons hlt]
  simp only [List.get_eq_getElem] at hget
  rw [hget]

theorem startsWithAt_head_ne {l : Str} {i : Nat} {c d : Char} {ts : Str}
    (h : charAt l i = some c) (hne : c ≠ d) :
    startsWithAt l (d :: ts) i = false := by
  unfold startsWithAt
  rw [charAt_drop_cons h, List.length_cons, List.take_succ_cons]
  simp [hne]

-- ---------------------------------------------------------------------------
-- Claim C5: seven hashes never form a heading
-- ---------------------------------------------------------------------------

/-- C5: `parseMarkdown "####### Not heading"` yields a single paragraph (not
a heading), and in general a line whose leading `#` run has length 7 or more
never matches the heading pattern. -/
theorem c5_seven_hashes :
    parseMarkdown (str "####### Not heading") none =
      [.paragraph [.text (str "####### Not heading")]] ∧
    ∀ l : Str, 7 ≤ leadingHashes l → headingMatchP l = none := by
  constructor
  · rfl
  · intro l h
    simp only [headingMatchP]
    rw [if_neg (by omega)]

/-- Witness for the hypothesis of C5 at a concrete line of eight hashes. -/
theorem c5_seven_hashes_witness :
    7 ≤ leadingHashes (str "######## x") ∧
    headingMatchP (str "######## x") = none :=
  ⟨by decide, c5_seven_hashes.2 (str "######## x") (by decide)⟩

-- ---------------------------------------------------------------------------
-- Claim C6: image-disabled containment
-- ---------------------------------------------------------------------------

/-- One scan step of `parseMarkdownInline` at `!` followed by `[` with the
image feature disabled: the step reduces to the disabled-image branch, which
consumes the complete span when the closing `]`, `(`, `)` are found, and
just the `!` otherwise. -/
theorem mdInline_step_bang (fs : Features) (fuel : Nat) (content : Str)
    (cursor : Nat) (acc : List MarkdownInlineNode)
    (himg : isMarkdownFeatureEnabled fs .image = false)
    (hbang : charAt content cursor = some '!')
    (hbr : charAt content (cursor + 1) = some '[') :
    parseMDInlineGo fs (fuel + 1) content cursor acc =
      (match (match findUnescapedToken content [']'] (cursor + 2) with
              | some altClosingIndex =>
                if charAt content (altClosingIndex + 1) = some '(' then
                  findUnescapedToken content [')'] (altClosingIndex + 2)
                else none
              | none => none) with
       | some srcClosingIndex =>
         parseMDInlineGo fs fuel content (srcClosingIndex + 1)
           (appendTextA acc (jsSlice content cursor (srcClosingIndex + 1)))
       | none =>
         parseMDInlineGo fs fuel content (cursor + 1) (appendTextA acc ['!'])) := by
  have hlt := charAt_lt hbang
  have hesc : ¬(charAt content cursor = some '\\' ∧ cursor + 1 < content.length) := by
    rintro ⟨hx, -⟩
    exact absurd (hbang.symm.trans hx) (by decide)
  have hcode : (if isMarkdownFeatureEnabled fs .code ∧
      charAt content cursor = some '`'
      then findUnescapedToken content ['`'] (cursor + 1) else none) = none := by
    rw [if_neg]
    rintro ⟨-, hx⟩
    exact absurd (hbang.symm.trans hx) (by decide)
  have hbold : (if isMarkdownFeatureEnabled fs .bold ∧
      (startsWithAt content ['*', '*'] cursor ∨ startsWithAt content ['_', '_'] cursor)
      then findUnescapedToken content (jsSlice content cursor (cursor + 2)) (cursor + 2)
      else none) = none := by
    rw [if_neg]
    rintro ⟨-, hx | hx⟩ <;>
      (rw [startsWithAt_head_ne hbang (by decide)] at hx; exact absurd hx (by decide))
  have hstrike : (if isMarkdownFeatureEnabled fs .strikethrough ∧
      startsWithAt content ['~', '~'] cursor
      then findUnescapedToken content ['~', '~'] (cursor + 2) else none) = none := by
    rw [if_neg]
    rintro ⟨-, hx⟩
    rw [startsWithAt_head_ne hbang (by decide)] at hx
    exact absurd hx (by decide)
  have hital : (if isMarkdownFeatureEnabled fs .italic ∧
      (charAt content cursor = some '*' ∨ charAt content cursor = some '_')
      then (charAt content cursor).bind
        (fun m => findUnescapedToken content [m] (cursor + 1))
      else none) = none := by
    rw [if_neg]
    rintro ⟨-, hx | hx⟩ <;> exact absurd (hbang.symm.trans hx) (by decide)
  have himgEn : (if charAt content cursor = some '!' ∧
      charAt content (cursor + 1) = some '[' ∧ isMarkdownFeatureEnabled fs .image
      then match findUnescapedToken content [']'] (cursor + 2) with
        | some altClosingIndex =>
          if charAt content (altClosingIndex + 1) = some '(' then
            (findUnescapedToken content [')'] (altClosingIndex + 2)).map
              (fun srcClosingIndex => (altClosingIndex, srcClosingIndex))
          else none
        | none => none
      else none) = none := by
    rw [if_neg]
    rintro ⟨-, -, hx⟩
    rw [himg] at hx
    exact absurd hx (by decide)
  rw [parseMDInlineGo]
  rw [if_pos hlt, if_neg hesc]
  simp only [hcode, hbold, hstrike, hital, himgEn]
  rw [if_pos ⟨hbang, hbr, by rw [himg]; decide⟩]

/-- C6: with the image feature disabled, `parseMarkdownInline "![alt](url)"`
is one verbatim text node; in general a complete `![...](...)` span is
consumed whole as literal text (cursor jumps past the closing parenthesis),
while an incomplete one consumes only the `!`, leaving the following `[`
for the link scan. -/
theorem c6_image_disabled :
    parseMarkdownInline (str "![alt](url)") (some [.bold]) =
      [.text (str "![alt](url)")] ∧
    (∀ (fs : Features) (fuel : Nat) (content : Str) (cursor a s : Nat)
       (acc : List MarkdownInlineNode),
       isMarkdownFeatureEnabled fs .image = false →
       charAt content cursor = some '!' →
       charAt content (cursor + 1) = some '[' →
       findUnescapedToken content [']'] (cursor + 2) = some a →
       charAt content (a + 1) = some '(' →
       findUnescapedToken content [')'] (a + 2) = some s →
       parseMDInlineGo fs (fuel + 1) content cursor acc =
         parseMDInlineGo fs fuel content (s + 1)
           (appendTextA acc (jsSlice content cursor (s + 1)))) ∧
    (∀ (fs : Features) (fuel : Nat) (content : Str) (cursor : Nat)
       (acc : List MarkdownInlineNode),
       isMarkdownFeatureEnabled fs .image = false →
       charAt content cursor = some '!' →
       charAt content (cursor + 1) = some '[' →
       (match findUnescapedToken content [']'] (cursor + 2) with
        | some altClosingIndex =>
          if charAt content (altClosingIndex + 1) = some '(' then
            findUnescapedToken content [')'] (altClosingIndex + 2)
          else none
        | none => none) = none →
       parseMDInlineGo fs (fuel + 1) content cursor acc =
         parseMDInlineGo fs fuel content (cursor + 1) (appendTextA acc ['!'])) := by
  refine ⟨rfl, ?_, ?_⟩
  · intro fs fuel content cursor a s acc himg hbang hbr ha hpar hs
    rw [mdInline_step_bang fs fuel content cursor acc himg hbang hbr]
    simp only [ha, if_pos hpar, hs]
  · intro fs fuel content cursor acc himg hbang hbr hnone
    rw [mdInline_step_bang fs fuel content cursor acc himg hbang hbr]
    simp only [hnone]

/-- Witness for C6's hypotheses: both general step equations applied at
concrete inputs (a complete span and a bare `![`). -/
theorem c6_image_disabled_witness :
    (isMarkdownFeatureEnabled (some [.bold]) .image = false ∧
     charAt (str "![a](u)") 0 = some '!' ∧
     charAt (str "![a](u)") 1 = some '[' ∧
     findUnescapedToken (str "![a](u)") [']'] 2 = some 3 ∧
     charAt (str "![a](u)") 4 = some '(' ∧
     findUnescapedToken (str "![a](u)") [')'] 5 = some 6 ∧
     parseMDInlineGo (some [.bold]) 8 (str "![a](u)") 0 [] =
       parseMDInlineGo (some [.bold]) 7 (str "![a](u)") 7
         (appendTextA [] (jsSlice (str "![a](u)") 0 7))) ∧
    (charAt (str "![") 0 = some '!' ∧
     parseMDInlineGo (some [.bold]) 3 (str "![") 0 [] =
       parseMDInlineGo (some [.bold]) 2 (str "![") 1 (appendTextA [] ['!'])) := by
  constructor
  · exact ⟨by decide, by decide, by decide, by decide, by decide, by decide,
      c6_image_disabled.2.1 (some [.bold]) 7 (str "![a](u)") 0 3 6 []
        (by decide) (by decide) (by decide) (by decide) (by decide) (by decide)⟩
  · exact ⟨by decide,
      c6_image_disabled.2.2 (some [.bold]) 2 (str "![") 0 []
        (by decide) (by decide) (by decide) (by decide)⟩

-- ---------------------------------------------------------------------------
-- Claim C8: selection wrap for inline actions
-- ---------------------------------------------------------------------------

/-- C8: on a non-empty selection, an inline action wraps the selected
substring with the action's markers, shifts both selection bounds right by
the open marker's length, and removes the action from the active set;
concretely, bold on `"hello world"` with selection 6–11 gives
`"hello **world**"` with selection 8–13. -/
theorem c8_inline_wrap :
    applyMarkdownToolbarAction .bold (str "hello world") ⟨6, 11⟩ [] =
      { text := str "hello **world**", selection := ⟨8, 13⟩,
        activeInlineActions := [] } ∧
    ∀ (ia : MarkdownInlineAction) (text : Str) (sel : MarkdownSelection)
      (acts : List MarkdownInlineAction),
      sel.start ≠ sel.stop →
      applyMarkdownToolbarAction ia.toAction text sel acts =
        { text := jsSlice text 0 sel.start ++ (inlineActionMarkers ia).1 ++
            jsSlice text sel.start sel.stop ++ (inlineActionMarkers ia).2 ++
            text.drop sel.stop
          selection := ⟨sel.start + (inlineActionMarkers ia).1.length,
                        sel.stop + (inlineActionMarkers ia).1.length⟩
          activeInlineActions := acts.filter (fun v => v ≠ ia) } := by
  refine ⟨by decide, ?_⟩
  intro ia text sel acts hne
  cases ia <;>
    simp [applyMarkdownToolbarAction, MarkdownInlineAction.toAction,
      toInlineAction, applyInlineAction, inlineActionMarkers, hne]

/-- Witness for C8's general part at the concrete spec example. -/
theorem c8_inline_wrap_witness :
    (6 : Nat) ≠ (11 : Nat) ∧
    applyMarkdownToolbarAction MdEditor.MarkdownInlineAction.bold.toAction
        (str "hello world") ⟨6, 11⟩ [] =
      { text := jsSlice (str "hello world") 0 6 ++
          (inlineActionMarkers .bold).1 ++
          jsSlice (str "hello world") 6 11 ++
          (inlineActionMarkers .bold).2 ++ (str "hello world").drop 11
        selection := ⟨6 + (inlineActionMarkers .bold).1.length,
                      11 + (inlineActionMarkers .bold).1.length⟩
        activeInlineActions := [] } :=
  ⟨by decide,
   c8_inline_wrap.2 .bold (str "hello world") ⟨6, 11⟩ [] (by decide)⟩

-- ---------------------------------------------------------------------------
-- Claim C9: ordered-list renumbering
-- ---------------------------------------------------------------------------

/-- C9: applying `orderedList` over `"line1\nline2\nline3"` with the whole
range selected renumbers from 1; pre-existing numbers are ignored when not
every line is numbered (second concrete case); in general the transform
strips the `\d+\.\s+` markers when every line has one and otherwise
renumbers unconditionally from 1. -/
theorem c9_ordered_renumber :
    applyMarkdownToolbarAction .orderedList (str "line1\nline2\nline3")
        ⟨0, 17⟩ [] =
      { text := str "1. line1\n2. line2\n3. line3", selection := ⟨0, 26⟩,
        activeInlineActions := [] } ∧
    applyMarkdownToolbarAction .orderedList (str "7. x\ny") ⟨0, 6⟩ [] =
      { text := str "1. 7. x\n2. y", selection := ⟨0, 12⟩,
        activeInlineActions := [] } ∧
    applyMarkdownToolbarAction .orderedList (str "1. a\n2. b") ⟨0, 9⟩ [] =
      { text := str "a\nb", selection := ⟨0, 3⟩,
        activeInlineActions := [] } ∧
    ∀ lines : List Str,
      transformLinesByAction .orderedList lines =
        (if lines.all testNumberMarker then lines.map stripNumberMarker
         else lines.mapIdx
           (fun index line => natToChars (index + 1) ++ ['.', ' '] ++ line)) := by
  refine ⟨by decide, by decide, by decide, ?_⟩
  intro lines
  rfl

-- ---------------------------------------------------------------------------
-- Claim C10: frame property of block actions
-- ---------------------------------------------------------------------------

/-- Is the action handled by `applyBlockAction` (neither inline nor image)? -/
def isBlockToolbarAction : MarkdownToolbarAction → Bool
  | .bold | .italic | .strikethrough | .code | .image => false
  | _ => true

/-- The frame shape of `applyBlockAction`: original prefix, transformed
content, original suffix; the active inline actions pass through. -/
theorem applyBlockAction_frame (a : MarkdownToolbarAction) (text : Str)
    (sel : MarkdownSelection) (acts : List MarkdownInlineAction) :
    (applyBlockAction a text sel acts).text =
      text.take (getSelectedLineRange text sel).1 ++
        joinNL (transformLinesByAction a
          (splitNL (getSelectedLineRange text sel).2.2)) ++
        text.drop (getSelectedLineRange text sel).2.1 ∧
    (applyBlockAction a text sel acts).activeInlineActions = acts := by
  simp only [applyBlockAction]
  split <;> exact ⟨rfl, rfl⟩

/-- C10: every block-level action rewrites only the whole-line range covered
by the selection: the result is the original prefix before the expanded
range, some replacement content, and the original suffix after it, with
`activeInlineActions` returned unchanged. -/
theorem c10_block_frame (a : MarkdownToolbarAction)
    (ha : isBlockToolbarAction a = true) (text : Str)
    (sel : MarkdownSelection) (acts : List MarkdownInlineAction) :
    ∃ mid,
      (applyMarkdownToolbarAction a text sel acts).text =
        text.take (getSelectedLineRange text sel).1 ++ mid ++
          text.drop (getSelectedLineRange text sel).2.1 ∧
      (applyMarkdownToolbarAction a text sel acts).activeInlineActions = acts := by
  cases a <;>
    first
    | exact absurd ha (by decide)
    | · simp only [applyMarkdownToolbarAction, toInlineAction]
        rw [if_neg (by decide)]
        exact ⟨_, applyBlockAction_frame _ text sel acts⟩

/-- Witness for C10 at a concrete block action and text. -/
theorem c10_block_frame_witness :
    isBlockToolbarAction .quote = true ∧
    ∃ mid,
      (applyMarkdownToolbarAction .quote (str "a\nb\nc") ⟨2, 3⟩ []).text =
        (str "a\nb\nc").take (getSelectedLineRange (str "a\nb\nc") ⟨2, 3⟩).1 ++
          mid ++
          (str "a\nb\nc").drop
            (getSelectedLineRange (str "a\nb\nc") ⟨2, 3⟩).2.1 ∧
      (applyMarkdownToolbarAction .quote (str "a\nb\nc") ⟨2, 3⟩
        []).activeInlineActions = [] :=
  ⟨by decide, c10_block_frame .quote (by decide) (str "a\nb\nc") ⟨2, 3⟩ []⟩

-- ---------------------------------------------------------------------------
-- Claim C7: no adjacent text nodes
-- ---------------------------------------------------------------------------

/-- No two consecutive nodes of the list are both text nodes. -/
def noAdj : List MarkdownInlineNode → Bool
  | a :: b :: t => (!(a.isText && b.isText)) && noAdj (b :: t)
  | _ => true

mutual
/-- Every children list nested inside the node satisfies the
adjacency-merge invariant. -/
def nodeOk : MarkdownInlineNode → Bool
  | .text _ => true
  | .code _ => true
  | .image _ _ _ => true
  | .bold cs => noAdj cs && nodesOk cs
  | .italic cs => noAdj cs && nodesOk cs
  | .strikethrough cs => noAdj cs && nodesOk cs
  | .link _ cs => noAdj cs && nodesOk cs

/-- `nodeOk` holds of every element. -/
def nodesOk : List MarkdownInlineNode → Bool
  | [] => true
  | n :: t => nodeOk n && nodesOk t
end

theorem noAdj_iff_chain (l : List MarkdownInlineNode) :
    noAdj l = true ↔
      List.Chain' (fun a b => ¬(a.isText = true ∧ b.isText = true)) l := by
  induction l with
  | nil => simp [noAdj]
  | cons a t ih =>
    cases t with
    | nil => simp [noAdj]
    | cons b t2 =>
      rw [List.chain'_cons, ← ih]
      cases ha : a.isText <;> cases hb : b.isText <;>
        simp [noAdj, ha, hb]

theorem noAdj_reverse_iff (l : List MarkdownInlineNode) :
    noAdj l.reverse = true ↔ noAdj l = true := by
  rw [noAdj_iff_chain, noAdj_iff_chain, List.chain'_reverse]
  constructor
  · intro h
    exact h.imp fun a b h2 hc => h2 ⟨hc.2, hc.1⟩
  · intro h
    exact h.imp fun a b h2 hc => h2 ⟨hc.2, hc.1⟩

theorem nodesOk_append (l1 l2 : List MarkdownInlineNode) :
    nodesOk (l1 ++ l2) = (nodesOk l1 && nodesOk l2) := by
  induction l1 with
  | nil => simp [nodesOk]
  | cons n t ih => simp [nodesOk, ih, Bool.and_assoc]

theorem nodesOk_reverse (l : List MarkdownInlineNode) :
    nodesOk l.reverse = nodesOk l := by
  induction l with
  | nil => rfl
  | cons n t ih =>
    simp [nodesOk, List.reverse_cons, nodesOk_append, ih, Bool.and_comm]

theorem noAdj_cons_notText {n : MarkdownInlineNode}
    {acc : List MarkdownInlineNode} (hn : n.isText = false)
    (h : noAdj acc = true) : noAdj (n :: acc) = true := by
  cases acc with
  | nil => rfl
  | cons b t => simp [noAdj, hn] at h ⊢; exact h

theorem appendTextA_noAdj {acc : List MarkdownInlineNode} (v : Str)
    (h : noAdj acc = true) : noAdj (appendTextA acc v) = true := by
  unfold appendTextA
  split
  · exact h
  · split
    case h_1 t rest =>
      cases rest with
      | nil => rfl
      | cons b t2 =>
        simp only [noAdj] at h ⊢
        cases hbt : b.isText <;> simp_all [MarkdownInlineNode.isText]
    case h_2 hne =>
      cases acc with
      | nil => rfl
      | cons b t =>
        have hb : b.isText = false := by
          cases b with
          | text s => exact (hne s t rfl).elim
          | code s => rfl
          | bold cs => rfl
          | italic cs => rfl
          | strikethrough cs => rfl
          | link hr cs => rfl
          | image a2 b2 c2 => rfl
        simp only [noAdj] at h ⊢
        rw [hb]
        simp [MarkdownInlineNode.isText, h]

theorem appendTextA_nodesOk {acc : List MarkdownInlineNode} (v : Str)
    (h : nodesOk acc = true) : nodesOk (appendTextA acc v) = true := by
  unfold appendTextA
  split
  · exact h
  · split
    case h_1 t rest =>
      simp [nodesOk, nodeOk] at h ⊢
      exact h
    case h_2 hne =>
      simp [nodesOk, nodeOk, h]

theorem parseMDInlineGo_ok (fs : Features) :
    ∀ (fuel : Nat) (content : Str) (cursor : Nat)
      (acc r : List MarkdownInlineNode),
      noAdj acc = true → nodesOk acc = true →
      parseMDInlineGo fs fuel content cursor acc = some r →
      noAdj r = true ∧ nodesOk r = true := by
  intro fuel
  induction fuel with
  | zero => intro content cursor acc r h1 h2 hr; exact absurd hr (by simp [parseMDInlineGo])
  | succ fuel ih =>
    intro content cursor acc r h1 h2 hr
    rw [parseMDInlineGo] at hr
    split at hr
    case isFalse =>
      obtain rfl : acc.reverse = r := Option.some.inj hr
      exact ⟨(noAdj_reverse_iff acc).mpr h1, by rw [nodesOk_reverse]; exact h2⟩
    case isTrue hlt =>
      split at hr
      case isTrue hesc =>
        exact ih content (cursor + 2) _ r
          (appendTextA_noAdj _ h1) (appendTextA_nodesOk _ h2) hr
      case isFalse hesc =>
        split at hr
        case h_1 j hj =>
          refine ih content (j + 1) _ r ?_ ?_ hr
          · exact noAdj_cons_notText rfl h1
          · simp [nodesOk, nodeOk, h2]
        case h_2 =>
        split at hr
        case h_1 j hj =>
          obtain ⟨children, hch, hcont⟩ := Option.bind_eq_some.mp hr
          obtain ⟨hc1, hc2⟩ := ih _ 0 [] children rfl rfl hch
          refine ih content (j + 2) _ r ?_ ?_ hcont
          · exact noAdj_cons_notText rfl h1
          · simp [nodesOk, nodeOk, h2, hc1, hc2]
        case h_2 =>
        split at hr
        case h_1 j hj =>
          obtain ⟨children, hch, hcont⟩ := Option.bind_eq_some.mp hr
          obtain ⟨hc1, hc2⟩ := ih _ 0 [] children rfl rfl hch
          refine ih content (j + 2) _ r ?_ ?_ hcont
          · exact noAdj_cons_notText rfl h1
          · simp [nodesOk, nodeOk, h2, hc1, hc2]
        case h_2 =>
        split at hr
        case h_1 j hj =>
          obtain ⟨children, hch, hcont⟩ := Option.bind_eq_some.mp hr
          obtain ⟨hc1, hc2⟩ := ih _ 0 [] children rfl rfl hch
          refine ih content (j + 1) _ r ?_ ?_ hcont
          · exact noAdj_cons_notText rfl h1
          · simp [nodesOk, nodeOk, h2, hc1, hc2]
        case h_2 =>
        split at hr
        case h_1 a s hp =>
          refine ih content (s + 1) _ r ?_ ?_ hr
          · exact noAdj_cons_notText rfl h1
          · simp [nodesOk, nodeOk, h2]
        case h_2 =>
        split at hr
        case isTrue hdis =>
          split at hr
          case h_1 s hs =>
            exact ih content (s + 1) _ r
              (appendTextA_noAdj _ h1) (appendTextA_nodesOk _ h2) hr
          case h_2 =>
            exact ih content (cursor + 1) _ r
              (appendTextA_noAdj _ h1) (appendTextA_nodesOk _ h2) hr
        case isFalse hdis =>
          split at hr
          case h_1 b hh hp =>
            obtain ⟨children, hch, hcont⟩ := Option.bind_eq_some.mp hr
            obtain ⟨hc1, hc2⟩ := ih _ 0 [] children rfl rfl hch
            refine ih content (hh + 1) _ r ?_ ?_ hcont
            · exact noAdj_cons_notText rfl h1
            · simp [nodesOk, nodeOk, h2, hc1, hc2]
          case h_2 =>
            exact ih content (cursor + 1) _ r
              (appendTextA_noAdj _ h1) (appendTextA_nodesOk _ h2) hr

/-- C7: the node list returned by `parseMarkdownInline`, and every nested
children list inside bold, italic, strikethrough and link nodes, never
contains two adjacent text nodes. -/
theorem c7_no_adjacent_text (content : Str) (fs : Features) :
    noAdj (parseMarkdownInline content fs) = true ∧
    nodesOk (parseMarkdownInline content fs) = true := by
  obtain ⟨r, hr⟩ := Option.isSome_iff_exists.mp
    (parseMDInlineGo_isSome fs (content.length + 1) content 0 [] (by omega))
  have h := parseMDInlineGo_ok fs (content.length + 1) content 0 [] r rfl rfl hr
  unfold parseMarkdownInline
  rw [hr]
  exact h

-- ---------------------------------------------------------------------------
-- Claim C3: an unmatched opening fence falls through to paragraph handling
-- ---------------------------------------------------------------------------

theorem fenceOpen_shape {l : Str} {lang : Option Str}
    (h : fenceOpenMatch l = some lang) :
    ∃ rest, l = '`' :: '`' :: '`' :: rest := by
  unfold fenceOpenMatch at h
  split at h
  case isTrue ht =>
    match l, ht with
    | c1 :: c2 :: c3 :: rest, ht =>
      simp only [List.take, List.cons.injEq] at ht
      exact ⟨rest, by rw [ht.1, ht.2.1, ht.2.2.1]⟩
  case isFalse => exact absurd h (by simp)

theorem isBlank_cons_false {c : Char} {t : Str} (hc : isJsSpace c = false) :
    isBlank (c :: t) = false := by
  simp only [isBlank, jsTrim, List.dropWhile_cons, hc, Bool.false_eq_true,
    if_false]
  by_contra hE
  rw [Bool.not_eq_false] at hE
  rw [List.isEmpty_eq_true, List.reverse_eq_nil_iff,
    List.dropWhile_eq_nil_iff] at hE
  have h2 := hE c (by simp)
  rw [hc] at h2
  exact Bool.noConfusion h2

/-- C3: a fence-open line with no later closing fence is never a block
start, and the scanner step at such a line emits no code block: the line is
consumed as the first line of a paragraph. -/
theorem c3_unmatched_fence (lines : List Str) (fs : Features)
    (fuel cursor : Nat) (lang : Option Str)
    (hlt : cursor < lines.length)
    (hfo : fenceOpenMatch (lines.getD cursor []) = some lang)
    (hnc : findClosingFence lines (cursor + 1) = none) :
    isBlockStart lines cursor fs = false ∧
    ∃ ps, collectParagraph lines fs (lines.drop cursor) cursor =
        lines.getD cursor [] :: ps ∧
      parseMarkdownGo lines fs (fuel + 1) cursor =
        (parseMarkdownGo lines fs fuel (cursor + (ps.length + 1))).map
          (MarkdownBlockNode.paragraph
            (parseMarkdownInline (joinNL (lines.getD cursor [] :: ps)) fs) :: ·) := by
  obtain ⟨rest, hshape⟩ := fenceOpen_shape hfo
  have hblank : isBlank (lines.getD cursor []) = false := by
    rw [hshape]; exact isBlank_cons_false (by decide)
  have hhead : headingMatchP (lines.getD cursor []) = none := by rw [hshape]; rfl
  have hhr : isHorizontalRule (lines.getD cursor []) = false := by rw [hshape]; rfl
  have hbq : blockquoteMatchP (lines.getD cursor []) = none := by rw [hshape]; rfl
  have hul : ulMatchP (lines.getD cursor []) = none := by rw [hshape]; rfl
  have hol : olMatchP (lines.getD cursor []) = none := by rw [hshape]; rfl
  have hbs : isBlockStart lines cursor fs = false := by
    simp only [isBlockStart, hblank, hhead, hhr, hbq, hul, hol, hfo, hnc]
    simp
  have hnb : ¬(isBlank (lines.getD cursor []) = true) := by
    rw [hblank]; decide
  have hdrop : lines.drop cursor =
      lines.getD cursor [] :: lines.drop (cursor + 1) := by
    rw [List.getD_eq_getElem _ _ hlt]
    exact List.drop_eq_getElem_cons hlt
  have hcollect : collectParagraph lines fs (lines.drop cursor) cursor =
      lines.getD cursor [] ::
        collectParagraph lines fs (lines.drop (cursor + 1)) (cursor + 1) := by
    rw [hdrop]
    simp only [collectParagraph, hbs]
    rw [hblank]
    simp
  refine ⟨hbs, collectParagraph lines fs (lines.drop (cursor + 1)) (cursor + 1),
    hcollect, ?_⟩
  have hfscrut : (match (if isMarkdownFeatureEnabled fs .codeBlock
        then fenceOpenMatch (lines.getD cursor []) else none) with
      | some lang2 => (findClosingFence lines (cursor + 1)).map
          (fun ci => (lang2, ci))
      | none => none) = (none : Option (Option Str × Nat)) := by
    cases hen : isMarkdownFeatureEnabled fs .codeBlock
    · rw [if_neg (by decide)]
    · rw [if_pos rfl, hfo, hnc]
      rfl
  simp only [parseMarkdownGo]
  rw [if_pos hlt, if_neg hnb]
  simp only [hfscrut, hhead, hhr, hbq, hul, hol, Option.isSome_none,
    Bool.and_false, Bool.false_or, Bool.false_eq_true, if_false]
  simp only [hcollect]
  simp

/-- Witness for C3 at a concrete two-line input with an unmatched fence. -/
theorem c3_unmatched_fence_witness :
    0 < ([str "```js", str "hello"] : List Str).length ∧
    fenceOpenMatch ([str "```js", str "hello"].getD 0 []) = some (some (str "js")) ∧
    findClosingFence [str "```js", str "hello"] 1 = none ∧
    (isBlockStart [str "```js", str "hello"] 0 none = false ∧
     ∃ ps, collectParagraph [str "```js", str "hello"] none
         ([str "```js", str "hello"].drop 0) 0 =
           [str "```js", str "hello"].getD 0 [] :: ps ∧
       parseMarkdownGo [str "```js", str "hello"] none (2 + 1) 0 =
         (parseMarkdownGo [str "```js", str "hello"] none 2 (0 + (ps.length + 1))).map
           (MarkdownBlockNode.paragraph
             (parseMarkdownInline
               (joinNL ([str "```js", str "hello"].getD 0 [] :: ps)) none) :: ·)) :=
  ⟨by decide, by decide, by decide,
   c3_unmatched_fence [str "```js", str "hello"] none 2 0 (some (str "js"))
     (by decide) (by decide) (by decide)⟩

-- ---------------------------------------------------------------------------
-- Claim C4: newline segments between lines
-- ---------------------------------------------------------------------------

theorem jsSlice_subset (l : Str) (a b : Nat) : jsSlice l a b ⊆ l := by
  intro x hx
  exact List.take_subset b l (List.drop_subset a (l.take b) hx)

theorem splitNL_ne_nil (s : Str) : splitNL s ≠ [] := by
  cases s with
  | nil => simp [splitNL]
  | cons c rest =>
    simp only [splitNL]
    split <;> [simp; split <;> simp]

theorem splitNL_no_newline (s : Str) : ∀ l ∈ splitNL s, '\n' ∉ l := by
  induction s with
  | nil =>
    intro l hl
    simp [splitNL] at hl
    subst hl
    simp
  | cons c rest ih =>
    intro l hl
    rcases hsp : splitNL rest with _ | ⟨h2, t2⟩
    · exact absurd hsp (splitNL_ne_nil rest)
    · simp only [splitNL, hsp] at hl
      by_cases hc : c = '\n'
      · rw [if_pos hc] at hl
        rcases List.mem_cons.mp hl with rfl | hmem
        · simp
        · exact ih l (by rw [hsp]; exact hmem)
      · rw [if_neg hc] at hl
        rcases List.mem_cons.mp hl with rfl | hmem
        · intro hx
          rcases List.mem_cons.mp hx with heq | hmem2
          · exact hc heq.symm
          · exact ih h2 (by rw [hsp]; simp) hmem2
        · exact ih l (by rw [hsp]; exact List.mem_cons_of_mem h2 hmem)

/-- The append-text closure of the inline highlighter preserves
newline-freedom of every accumulated segment text. -/
theorem appendSegA_no_newline {ctx : InlineContext}
    {acc : List RawInlineSegment} {v : Str} {ty : InlineSegmentType}
    (hacc : ∀ seg ∈ acc, '\n' ∉ seg.text) (hv : '\n' ∉ v) :
    ∀ seg ∈ appendSegA ctx acc v ty, '\n' ∉ seg.text := by
  unfold appendSegA
  split
  · exact hacc
  · split
    case h_1 last rest =>
      split
      · intro seg hseg
        rcases List.mem_cons.mp hseg with rfl | hmem
        · simp only [List.mem_append]
          rintro (hx | hx)
          · exact hacc last (by simp) hx
          · exact hv hx
        · exact hacc seg (by simp [hmem])
      · intro seg hseg
        rcases List.mem_cons.mp hseg with rfl | hmem
        · exact hv
        · exact hacc seg (by simp [hmem])
    case h_2 =>
      intro seg hseg
      rcases List.mem_singleton.mp hseg with rfl
      exact hv

/-- Every segment text in the list is free of newline characters. -/
def segsNoNewline (l : List RawInlineSegment) : Prop :=
  ∀ seg ∈ l, '\n' ∉ seg.text

theorem segsNoNewline_nil : segsNoNewline [] := by
  intro seg hseg
  simp at hseg

theorem segsNoNewline_cons {s : RawInlineSegment} {l : List RawInlineSegment}
    (hs : '\n' ∉ s.text) (hl : segsNoNewline l) : segsNoNewline (s :: l) := by
  intro seg hseg
  rcases List.mem_cons.mp hseg with rfl | hmem
  · exact hs
  · exact hl seg hmem

theorem segsNoNewline_append {l1 l2 : List RawInlineSegment}
    (h1 : segsNoNewline l1) (h2 : segsNoNewline l2) :
    segsNoNewline (l1 ++ l2) := by
  intro seg hseg
  rcases List.mem_append.mp hseg with hmem | hmem
  · exact h1 seg hmem
  · exact h2 seg hmem

theorem segsNoNewline_reverse {l : List RawInlineSegment}
    (h : segsNoNewline l) : segsNoNewline l.reverse := by
  intro seg hseg
  exact h seg (List.mem_reverse.mp hseg)

theorem no_newline_slice {content : Str} (h : '\n' ∉ content) (a b : Nat) :
    '\n' ∉ jsSlice content a b :=
  fun hx => h (jsSlice_subset content a b hx)

theorem parseInlineHLGo_no_newline (fs : Features) :
    ∀ (fuel : Nat) (ctx : InlineContext) (content : Str) (cursor : Nat)
      (acc r : List RawInlineSegment),
      '\n' ∉ content → segsNoNewline acc →
      parseInlineHLGo fs ctx fuel content cursor acc = some r →
      segsNoNewline r := by
  intro fuel
  induction fuel with
  | zero =>
    intro ctx content cursor acc r hc hacc hr
    exact absurd hr (by simp [parseInlineHLGo])
  | succ fuel ih =>
    intro ctx content cursor acc r hc hacc hr
    rw [parseInlineHLGo] at hr
    split at hr
    case isFalse =>
      obtain rfl : acc.reverse = r := Option.some.inj hr
      exact segsNoNewline_reverse hacc
    case isTrue hlt =>
      split at hr
      case isTrue hesc =>
        refine ih ctx content (cursor + 2) _ r hc ?_ hr
        exact appendSegA_no_newline
          (segsNoNewline_cons (by decide) hacc) (no_newline_slice hc _ _)
      case isFalse hesc =>
        split at hr
        case h_1 j hj =>
          refine ih ctx content (j + 1) _ r hc ?_ hr
          exact segsNoNewline_cons (by decide)
            (segsNoNewline_cons (no_newline_slice hc _ _)
              (segsNoNewline_cons (by decide) hacc))
        case h_2 =>
        split at hr
        case h_1 j hj =>
          obtain ⟨inner, hin, hcont⟩ := Option.bind_eq_some.mp hr
          have hinner := ih _ _ 0 [] inner
            (no_newline_slice hc _ _) segsNoNewline_nil hin
          refine ih ctx content (j + 2) _ r hc ?_ hcont
          exact segsNoNewline_cons (no_newline_slice hc _ _)
            (segsNoNewline_append (segsNoNewline_reverse hinner)
              (segsNoNewline_cons (no_newline_slice hc _ _) hacc))
        case h_2 =>
        split at hr
        case h_1 j hj =>
          obtain ⟨inner, hin, hcont⟩ := Option.bind_eq_some.mp hr
          have hinner := ih _ _ 0 [] inner
            (no_newline_slice hc _ _) segsNoNewline_nil hin
          refine ih ctx content (j + 2) _ r hc ?_ hcont
          exact segsNoNewline_cons (by decide)
            (segsNoNewline_append (segsNoNewline_reverse hinner)
              (segsNoNewline_cons (by decide) hacc))
        case h_2 =>
        split at hr
        case h_1 j hj =>
          obtain ⟨inner, hin, hcont⟩ := Option.bind_eq_some.mp hr
          have hinner := ih _ _ 0 [] inner
            (no_newline_slice hc _ _) segsNoNewline_nil hin
          refine ih ctx content (j + 1) _ r hc ?_ hcont
          exact segsNoNewline_cons (no_newline_slice hc _ _)
            (segsNoNewline_append (segsNoNewline_reverse hinner)
              (segsNoNewline_cons (no_newline_slice hc _ _) hacc))
        case h_2 =>
        split at hr
        case h_1 a s hp =>
          refine ih ctx content (s + 1) _ r hc ?_ hr
          exact segsNoNewline_cons (no_newline_slice hc _ _) hacc
        case h_2 =>
        split at hr
        case isTrue hdis =>
          split at hr
          case h_1 s hs =>
            refine ih ctx content (s + 1) _ r hc ?_ hr
            exact appendSegA_no_newline hacc (no_newline_slice hc _ _)
          case h_2 =>
            refine ih ctx content (cursor + 1) _ r hc ?_ hr
            exact appendSegA_no_newline hacc (by decide)
        case isFalse hdis =>
          split at hr
          case h_1 b hh hp =>
            refine ih ctx content (hh + 1) _ r hc ?_ hr
            exact segsNoNewline_cons (by simp)
              (segsNoNewline_cons (no_newline_slice hc _ _)
                (segsNoNewline_cons (by simp)
                  (segsNoNewline_cons (no_newline_slice hc _ _)
                    (segsNoNewline_cons (by simp) hacc))))
          case h_2 =>
            refine ih ctx content (cursor + 1) _ r hc ?_ hr
            exact appendSegA_no_newline hacc (no_newline_slice hc _ _)

/-- The public inline highlighter never emits a segment containing a
newline when its input contains none. -/
theorem parseInlineHighlight_no_newline {content : Str} (fs : Features)
    (hc : '\n' ∉ content) : segsNoNewline (parseInlineHighlight content fs) := by
  unfold parseInlineHighlight
  rcases hr : parseInlineHLGo fs defaultCtx (content.length + 1) content 0 []
    with _ | r
  · exact segsNoNewline_nil
  · exact parseInlineHLGo_no_newline fs _ _ content 0 [] r hc segsNoNewline_nil hr

theorem headingMatchH_no_newline {l : Str} {n : Nat} {c : Str}
    (h : headingMatchH l = some (n, c)) (hl : '\n' ∉ l) : '\n' ∉ c := by
  simp only [headingMatchH] at h
  split at h
  · split at h
    · exact absurd h (by simp)
    · obtain ⟨-, hc⟩ := Prod.mk.injEq _ _ _ _ ▸ Option.some.inj h
      intro hx
      rw [← hc] at hx
      exact hl (List.drop_subset _ l
        (List.drop_subset _ _ (List.takeWhile_subset _ hx)))
  · exact absurd h (by simp)

theorem blockquoteMatchH_no_newline {l : Str} {m c : Str}
    (h : blockquoteMatchH l = some (m, c)) (hl : '\n' ∉ l) :
    '\n' ∉ m ∧ '\n' ∉ c := by
  unfold blockquoteMatchH at h
  split at h
  case h_1 rest2 =>
    split at h
    case h_1 c2 body =>
      split at h
      · obtain ⟨hm, hc⟩ := Prod.mk.injEq _ _ _ _ ▸ Option.some.inj h
        constructor
        · intro hx
          rw [← hm] at hx
          simp only [List.mem_cons, List.not_mem_nil, or_false] at hx
          rcases hx with hx | hx
          · exact absurd hx (by decide)
          · rw [hx] at hl
            exact hl (by simp)
        · intro hx
          rw [← hc] at hx
          exact hl (by simp [List.takeWhile_subset _ hx])
      · obtain ⟨hm, hc⟩ := Prod.mk.injEq _ _ _ _ ▸ Option.some.inj h
        constructor
        · intro hx
          rw [← hm] at hx
          exact absurd (List.mem_singleton.mp hx) (by decide)
        · intro hx
          rw [← hc] at hx
          exact hl (by simp [List.takeWhile_subset _ hx])
    case h_2 =>
      obtain ⟨hm, hc⟩ := Prod.mk.injEq _ _ _ _ ▸ Option.some.inj h
      constructor
      · intro hx
        rw [← hm] at hx
        exact absurd (List.mem_singleton.mp hx) (by decide)
      · intro hx
        rw [← hc] at hx
        simp at hx
  case h_2 => exact absurd h (by simp)

theorem ulMatchH_no_newline {l : Str} {m c : Str}
    (h : ulMatchH l = some (m, c)) (hl : '\n' ∉ l) :
    '\n' ∉ m ∧ '\n' ∉ c := by
  simp only [ulMatchH] at h
  split at h
  case h_1 ch rest heq =>
    split at h
    · split at h
      · obtain ⟨hm, hc⟩ := Prod.mk.injEq _ _ _ _ ▸ Option.some.inj h
        have hchl : ch :: rest ⊆ l := by
          rw [← heq]
          exact List.drop_subset _ l
        constructor
        · intro hx
          rw [← hm] at hx
          rcases List.mem_append.mp hx with hx | hx
          · exact hl (List.takeWhile_subset _ hx)
          · rcases List.mem_cons.mp hx with rfl | hx
            · exact hl (hchl (by simp))
            · exact hl (hchl (List.mem_cons_of_mem ch
                (List.takeWhile_subset _ hx)))
        · intro hx
          rw [← hc] at hx
          exact hl (hchl (List.mem_cons_of_mem ch
            (List.drop_subset _ _ (List.takeWhile_subset _ hx))))
      · exact absurd h (by simp)
    · exact absurd h (by simp)
  case h_2 => exact absurd h (by simp)

theorem olMatchH_no_newline {l : Str} {m c : Str}
    (h : olMatchH l = some (m, c)) (hl : '\n' ∉ l) :
    '\n' ∉ m ∧ '\n' ∉ c := by
  simp only [olMatchH] at h
  split at h
  · exact absurd h (by simp)
  · split at h
    case h_1 rest heq =>
      split at h
      · obtain ⟨hm, hc⟩ := Prod.mk.injEq _ _ _ _ ▸ Option.some.inj h
        have hrl : '.' :: rest ⊆ l := by
          rw [← heq]
          intro x hx
          exact List.drop_subset _ l (List.drop_subset _ _ hx)
        constructor
        · intro hx
          rw [← hm] at hx
          rcases List.mem_append.mp hx with hx | hx
          · rcases List.mem_append.mp hx with hx | hx
            · exact hl (List.takeWhile_subset _ hx)
            · exact hl (List.drop_subset _ l (List.takeWhile_subset _ hx))
          · rcases List.mem_cons.mp hx with hx | hx
            · exact absurd hx (by decide)
            · exact hl (hrl (List.mem_cons_of_mem '.'
                (List.takeWhile_subset _ hx)))
        · intro hx
          rw [← hc] at hx
          exact hl (hrl (List.mem_cons_of_mem '.'
            (List.drop_subset _ _ (List.takeWhile_subset _ hx))))
      · exact absurd h (by simp)
    case h_2 => exact absurd h (by simp)

/-- Newline-freedom for public highlight segments. -/
def hlSegsNoNewline (l : List HighlightSegment) : Prop :=
  ∀ seg ∈ l, '\n' ∉ seg.text

theorem appendInlineSegments_no_newline (fs : Features) {text : Str}
    (base : HighlightSegmentType) (om : Option Meta) (ht : '\n' ∉ text) :
    hlSegsNoNewline (appendInlineSegments fs text base om) := by
  intro seg hseg
  unfold appendInlineSegments at hseg
  obtain ⟨seg0, hmem0, hmap⟩ := List.mem_map.mp hseg
  have htext : seg.text = seg0.text := by rw [← hmap]
  rw [htext]
  exact parseInlineHighlight_no_newline fs ht seg0 hmem0

theorem hlLine_no_newline (fs : Features) (line : Str) (ic : Bool)
    (hl : '\n' ∉ line) : hlSegsNoNewline (hlLine fs line ic).1 := by
  unfold hlLine
  split
  · intro seg hseg
    rcases List.mem_singleton.mp hseg with rfl
    exact hl
  · split
    · intro seg hseg
      rcases List.mem_singleton.mp hseg with rfl
      exact hl
    · split
      case h_1 level cg hscrut =>
        have hcg : headingMatchH line = some (level, cg) := by
          split at hscrut
          case h_1 nc hnc =>
            split at hscrut
            · rw [hnc, Option.some.inj hscrut]
            · exact absurd hscrut (by simp)
          case h_2 => exact absurd hscrut (by simp)
        intro seg hseg
        rcases List.mem_cons.mp hseg with rfl | hmem
        · intro hx
          simp only [List.mem_append] at hx
          rcases hx with hx | hx
          · exact absurd (List.eq_of_mem_replicate hx) (by decide)
          · exact absurd (List.mem_singleton.mp hx) (by decide)
        · exact appendInlineSegments_no_newline fs _ _
            (headingMatchH_no_newline hcg hl) seg hmem
      case h_2 =>
        split
        · intro seg hseg
          rcases List.mem_singleton.mp hseg with rfl
          exact hl
        · split
          case h_1 p hscrut =>
            obtain ⟨-, hbq⟩ := ifopt_some hscrut
            obtain ⟨hm, hc⟩ := blockquoteMatchH_no_newline hbq hl
            intro seg hseg
            rcases List.mem_cons.mp hseg with rfl | hmem
            · exact hm
            · exact appendInlineSegments_no_newline fs _ _ hc seg hmem
          case h_2 =>
            split
            case h_1 p hscrut =>
              obtain ⟨-, hulm⟩ := ifopt_some hscrut
              obtain ⟨hm, hc⟩ := ulMatchH_no_newline hulm hl
              intro seg hseg
              rcases List.mem_cons.mp hseg with rfl | hmem
              · exact hm
              · exact appendInlineSegments_no_newline fs _ _ hc seg hmem
            case h_2 =>
              split
              case h_1 p hscrut =>
                obtain ⟨-, holm⟩ := ifopt_some hscrut
                obtain ⟨hm, hc⟩ := olMatchH_no_newline holm hl
                intro seg hseg
                rcases List.mem_cons.mp hseg with rfl | hmem
                · exact hm
                · exact appendInlineSegments_no_newline fs _ _ hc seg hmem
              case h_2 =>
                exact appendInlineSegments_no_newline fs _ _ hl

theorem hlLine_meta (fs : Features) (line : Str) (ic : Bool) (m : Meta)
    (h : (hlLine fs line ic).2.2 = some m) :
    ∃ level cg, headingMatchH line = some (level, cg) ∧
      isHeadingLevelEnabled fs level = true ∧ m = hlHeadingMeta level := by
  unfold hlLine at h
  split at h
  · exact absurd h (by simp)
  · split at h
    · exact absurd h (by simp)
    · split at h
      case h_1 level cg hscrut =>
        have hok : headingMatchH line = some (level, cg) ∧
            isHeadingLevelEnabled fs level = true := by
          split at hscrut
          case h_1 nc hnc =>
            split at hscrut
            case isTrue hguard =>
              obtain rfl : nc = (level, cg) := Option.some.inj hscrut
              refine ⟨hnc, ?_⟩
              simp only [Bool.and_eq_true] at hguard
              exact hguard.2
            case isFalse => exact absurd hscrut (by simp)
          case h_2 => exact absurd hscrut (by simp)
        refine ⟨level, cg, hok.1, hok.2, ?_⟩
        simp only at h
        exact (Option.some.inj h).symm
      case h_2 =>
        split at h
        · exact absurd h (by simp)
        · split at h
          · exact absurd h (by simp)
          · split at h
            · exact absurd h (by simp)
            · split at h
              · exact absurd h (by simp)
              · exact absurd h (by simp)

theorem hlLines_eq_join (fs : Features) : ∀ (ls : List Str) (ic : Bool),
    hlLines fs ls ic = joinWithNewlines (hlLineOutputs fs ls ic) := by
  intro ls
  induction ls with
  | nil => intro ic; rfl
  | cons l rest ih =>
    intro ic
    cases rest with
    | nil => simp [hlLines, hlLineOutputs, joinWithNewlines]
    | cons l2 r2 =>
      have hstep : hlLines fs (l :: l2 :: r2) ic =
          (hlLine fs l ic).1 ++ newlineSegment (hlLine fs l ic).2.2 ::
            hlLines fs (l2 :: r2) (hlLine fs l ic).2.1 := rfl
      rw [hstep, ih]
      rfl

theorem hlLineOutputs_no_newline (fs : Features) : ∀ (ls : List Str) (ic : Bool),
    (∀ l ∈ ls, '\n' ∉ l) →
    ∀ p ∈ hlLineOutputs fs ls ic, ∀ seg ∈ p.1, '\n' ∉ seg.text := by
  intro ls
  induction ls with
  | nil => intro ic hls p hp; simp [hlLineOutputs] at hp
  | cons l rest ih =>
    intro ic hls p hp
    simp only [hlLineOutputs] at hp
    rcases List.mem_cons.mp hp with rfl | hmem
    · exact hlLine_no_newline fs l ic (hls l (by simp))
    · exact ih _ (fun l2 hl2 => hls l2 (List.mem_cons_of_mem l hl2)) p hmem

/-- C4: `highlightMarkdown` decomposes into per-line segment lists joined by
exactly one newline segment between consecutive lines; no per-line segment
contains a newline character (so the separators are the only `"\n"`
segments); the newline segment is a plain text segment unless the preceding
line was recognized as a heading, in which case it has type `heading` and
carries that line's heading metadata (`lineContext` and `headingLevel`). -/
theorem c4_newline_segments (s : Str) (fs : Features) :
    highlightMarkdown s fs =
      joinWithNewlines (hlLineOutputs fs (splitNL s) false) ∧
    (∀ p ∈ hlLineOutputs fs (splitNL s) false, ∀ seg ∈ p.1, '\n' ∉ seg.text) ∧
    (∀ (line : Str) (ic : Bool) (m : Meta),
        (hlLine fs line ic).2.2 = some m →
        ∃ level cg, headingMatchH line = some (level, cg) ∧
          isHeadingLevelEnabled fs level = true ∧ m = hlHeadingMeta level) ∧
    newlineSegment none = { text := ['\n'], type := .text, meta := none } ∧
    (∀ m : Meta, m.lineContext = some (str "heading") →
        newlineSegment (some m) =
          { text := ['\n'], type := .heading, meta := some m }) ∧
    (∀ m : Meta, m.lineContext ≠ some (str "heading") →
        newlineSegment (some m) = { text := ['\n'], type := .text, meta := none }) := by
  refine ⟨hlLines_eq_join fs (splitNL s) false,
    hlLineOutputs_no_newline fs (splitNL s) false (splitNL_no_newline s),
    hlLine_meta fs, rfl, ?_, ?_⟩
  · intro m hm
    simp [newlineSegment, hm]
  · intro m hm
    simp [newlineSegment, hm]

/-- Witness for C4's hypotheses: the heading-meta provenance and both
newline-segment shapes applied at concrete lines and metadata. -/
theorem c4_newline_segments_witness :
    ((hlLine none (str "# T") false).2.2 = some (hlHeadingMeta 1) ∧
     ∃ level cg, headingMatchH (str "# T") = some (level, cg) ∧
       isHeadingLevelEnabled none level = true ∧
       hlHeadingMeta 1 = hlHeadingMeta level) ∧
    ((hlHeadingMeta 1).lineContext = some (str "heading") ∧
     newlineSegment (some (hlHeadingMeta 1)) =
       { text := ['\n'], type := .heading, meta := some (hlHeadingMeta 1) }) ∧
    ((Meta.mk none none none none none).lineContext ≠ some (str "heading") ∧
     newlineSegment (some (Meta.mk none none none none none)) =
       { text := ['\n'], type := .text, meta := none }) :=
  ⟨⟨by decide,
    (c4_newline_segments (str "# T\nx") none).2.2.1 (str "# T") false
      (hlHeadingMeta 1) (by decide)⟩,
   ⟨by decide,
    (c4_newline_segments (str "# T\nx") none).2.2.2.2.1 (hlHeadingMeta 1)
      (by decide)⟩,
   ⟨by decide,
    (c4_newline_segments (str "# T\nx") none).2.2.2.2.2
      (Meta.mk none none none none none) (by decide)⟩⟩

end MdEditor
